import Mathlib

/-!
# simonhege/server: a verification development

Shallow embedding of the HTTP middleware toolkit (`server.go`, `admin.go`,
`rateLimit.go`, `requestId.go`, `ip/ip.go`) and of the parts of the Go standard
library and of `golang.org/x/time/rate` that these files call.

Conventions.
* A Go `string` / `[]byte` is a list of bytes (`GoString`).
* A handler is a state-passing function over `World`; `none` is a panicking call.
* Machine integers are `Nat` with explicit `% 2 ^ w`.
-/

namespace Server

/-! ## Bytes and strings -/

/-- One byte. -/
abbrev Byte := Fin 256

/-- Go `string` (and `[]byte`): a sequence of bytes. -/
abbrev GoString := List Byte

/-- The bytes of an ASCII literal. -/
def str (s : String) : GoString := s.toList.map (fun c => Fin.ofNat c.toNat)

/-- The byte `':'`. -/
def colon : Byte := 58

/-- The byte `'.'`. -/
def dot : Byte := 46

/-- The byte `'%'`. -/
def percent : Byte := 37

/-- The byte `'['`. -/
def lbracket : Byte := 91

/-- The byte `']'`. -/
def rbracket : Byte := 93

/-! ## server.go: `apply` -/

/-- `type Middleware func(http.Handler) http.Handler`, for any handler type. -/
abbrev Middleware (α : Type) := α → α

/-- The loop of `apply`: `for i := len(mws) - 1; i >= 0; i-- { handler = mws[i](handler) }`.
The first argument is `i + 1`, the number of middlewares still to be applied. -/
def applyLoop {α : Type} (mws : List (Middleware α)) : Nat → α → α
  | 0, handler => handler
  | i + 1, handler =>
    match mws.get? i with
    | some m => applyLoop mws i (m handler)
    | none => applyLoop mws i handler

/-- `func apply(handler http.Handler, mws ...Middleware) http.Handler`. -/
def apply {α : Type} (handler : α) (mws : List (Middleware α)) : α :=
  applyLoop mws mws.length handler

/-! ### Tracing fixtures for the ordering property -/

/-- What a traced request visits. -/
inductive Visit where
  | enter (name : String)
  | handle
  | leave (name : String) (status : Nat)
  deriving DecidableEq, Repr

/-- A handler that returns a status code and records its visits. -/
abbrev TraceHandler := List Visit → Nat × List Visit

/-- A middleware with an inbound part, a call of `next` and an outbound part that
sees the response of `next`. -/
def passThrough (name : String) : Middleware TraceHandler :=
  fun next tr =>
    let res := next (tr ++ [Visit.enter name])
    (res.1, res.2 ++ [Visit.leave name res.1])

/-- A middleware that answers with `status` without calling `next`. -/
def shortCircuit (name : String) (status : Nat) : Middleware TraceHandler :=
  fun _next tr => (status, tr ++ [Visit.enter name])

/-- A terminal handler answering `status`. -/
def terminal (status : Nat) : TraceHandler :=
  fun tr => (status, tr ++ [Visit.handle])

/-! ## context -/

/-- Keys under which values are stored in a `context.Context`; `requestIDKey` is the
package-private `ctxKeyRequestID{}` of `requestId.go`. -/
inductive CtxKey where
  | requestIDKey
  | other (n : Nat)
  deriving DecidableEq, Repr

/-- A Go value of interface type `any`, as far as the type assertion `.(string)` can tell. -/
inductive Any where
  | string (s : GoString)
  | other (n : Nat)
  deriving DecidableEq, Repr

/-- A `context.Context`: the background context or a `context.WithValue` on a parent. -/
inductive Context where
  | background
  | withValue (parent : Context) (key : CtxKey) (val : Any)
  deriving DecidableEq, Repr

/-- `ctx.Value(key)`: the innermost value stored under `key`, `nil` (`none`) when there is none. -/
def Context.Value : Context → CtxKey → Option Any
  | Context.background, _ => none
  | Context.withValue parent k v, key => if k = key then some v else Context.Value parent key

/-! ## net/http -/

/-- `http.Header`: the values stored under each (canonical) header name. -/
abbrev Header := List (GoString × List GoString)

/-- `Header.Get(key)`: the first value stored under `key`, `""` when there is none. The two
names the repository asks for, `X-Api-Key` and `X-Envoy-External-Address`, are already in
canonical form, so the canonicalisation of `key` is the identity on them. -/
def Header.Get (h : Header) (key : GoString) : GoString :=
  match h.lookup key with
  | some (v :: _) => v
  | _ => []

/-- The fields of `http.Request` the middlewares read; `URL` is the text of `r.URL.String()`. -/
structure Request where
  Method : GoString
  URL : GoString
  Header : Header
  RemoteAddr : GoString
  ctx : Context
  deriving DecidableEq, Repr

/-- One method call on an `http.ResponseWriter`. -/
inductive WriterCall where
  | headerSet (key value : GoString)
  | headerDel (key : GoString)
  | writeHeader (code : Nat)
  | write (body : GoString)
  deriving DecidableEq, Repr

/-- An `http.ResponseWriter`, as the sequence of calls made on it so far. -/
abbrev ResponseWriter := List WriterCall

/-- `http.StatusText` for the two codes the middlewares use. -/
def StatusText (code : Nat) : GoString :=
  if code = 403 then str "Forbidden"
  else if code = 429 then str "Too Many Requests"
  else []

/-- `http.StatusForbidden`. -/
def StatusForbidden : Nat := 403

/-- `http.StatusTooManyRequests`. -/
def StatusTooManyRequests : Nat := 429

/-- `http.Error(w, error, code)`: drops `Content-Length`, sets the plain-text content type and
`nosniff`, writes the status line and then the message followed by a newline. -/
def httpError (w : ResponseWriter) (error : GoString) (code : Nat) : ResponseWriter :=
  w ++ [WriterCall.headerDel (str "Content-Length"),
        WriterCall.headerSet (str "Content-Type") (str "text/plain; charset=utf-8"),
        WriterCall.headerSet (str "X-Content-Type-Options") (str "nosniff"),
        WriterCall.writeHeader code,
        WriterCall.write (error ++ str "\n")]

/-! ## log/slog calls on the default logger -/

/-- One call `slog.WarnContext(ctx, msg, args...)`. -/
structure LogCall where
  ctx : Context
  msg : GoString
  args : List (GoString × GoString)
  deriving DecidableEq, Repr

/-! ## log/slog records and handlers -/

/-- `slog.Attr`. -/
structure Attr where
  Key : GoString
  Value : Any
  deriving DecidableEq, Repr

/-- `slog.Record`; `attrs` are its attributes in the order `Record.Attrs` visits them. -/
structure Record where
  Time : Nat
  Message : GoString
  Level : Int
  PC : Nat
  attrs : List Attr
  deriving DecidableEq, Repr

/-- `r.Add(key, value)` with a string key and a string value: one attribute more, at the end. -/
def Record.Add (r : Record) (key : GoString) (value : GoString) : Record :=
  { r with attrs := r.attrs ++ [{ Key := key, Value := Any.string value }] }

/-- The method set of `slog.Handler` over handlers of type `H` that emit into a sink state `S`;
`Handle` returns the `error` (`none` is `nil`) with the sink afterwards. -/
structure HandlerOps (H : Type) (S : Type) where
  Enabled : H → Context → Int → Bool
  Handle : H → Context → Record → S → Option GoString × S
  WithAttrs : H → List Attr → H
  WithGroup : H → GoString → H

/-! ## requestId.go -/

/-- `type requestIDHandler struct { handler slog.Handler }`. -/
structure requestIDHandler (H : Type) where
  handler : H

/-- `func Wrap(h slog.Handler) slog.Handler`. -/
def Wrap {H : Type} (h : H) : requestIDHandler H := { handler := h }

/-- `(*requestIDHandler).Enabled`. -/
def requestIDHandler.Enabled {H S : Type} (ops : HandlerOps H S) (h : requestIDHandler H)
    (ctx : Context) (level : Int) : Bool :=
  ops.Enabled h.handler ctx level

/-- `(*requestIDHandler).Handle`: `r` is a copy of the caller's record. -/
def requestIDHandler.Handle {H S : Type} (ops : HandlerOps H S) (h : requestIDHandler H)
    (ctx : Context) (r : Record) (sink : S) : Option GoString × S :=
  match ctx.Value CtxKey.requestIDKey with
  | some (Any.string reqID) => ops.Handle h.handler ctx (r.Add (str "request_id") reqID) sink
  | _ => ops.Handle h.handler ctx r sink

/-- `(*requestIDHandler).WithAttrs`. -/
def requestIDHandler.WithAttrs {H S : Type} (ops : HandlerOps H S) (h : requestIDHandler H)
    (attrs : List Attr) : requestIDHandler H :=
  { handler := ops.WithAttrs h.handler attrs }

/-- `(*requestIDHandler).WithGroup`. -/
def requestIDHandler.WithGroup {H S : Type} (ops : HandlerOps H S) (h : requestIDHandler H)
    (name : GoString) : requestIDHandler H :=
  { handler := ops.WithGroup h.handler name }

/-- The method set of `*requestIDHandler`: it is a `slog.Handler` again. -/
def requestIDHandler.ops {H S : Type} (ops : HandlerOps H S) :
    HandlerOps (requestIDHandler H) S :=
  { Enabled := requestIDHandler.Enabled ops
    Handle := requestIDHandler.Handle ops
    WithAttrs := requestIDHandler.WithAttrs ops
    WithGroup := requestIDHandler.WithGroup ops }

/-- The context `RequestID` hands to `next`:
`context.WithValue(r.Context(), requestIDKey, requestId)`. -/
def withRequestID (ctx : Context) (requestId : GoString) : Context :=
  Context.withValue ctx CtxKey.requestIDKey (Any.string requestId)

/-! ## ip/ip.go: `Get` -/

/-- `strings.LastIndex(s, sep)` for a one-byte `sep`: scan `i = len(s) - 1` down to `0` and
return the first `i` with `s[i] == c`, `-1` when there is none. The `Nat` argument is `i + 1`. -/
def LastIndexLoop (s : GoString) (c : Byte) : Nat → Int
  | 0 => -1
  | i + 1 => if s.get? i = some c then (i : Int) else LastIndexLoop s c i

/-- `strings.LastIndex(s, ":")` and the like. -/
def LastIndex (s : GoString) (c : Byte) : Int := LastIndexLoop s c s.length

/-- The slice expression `s[:n]`: a run-time panic (`none`) unless `0 ≤ n ≤ len(s)`. -/
def sliceTo (s : GoString) (n : Int) : Option GoString :=
  if 0 ≤ n ∧ n ≤ (s.length : Int) then some (s.take n.toNat) else none

/-- `cmp.Or(a, b)` on strings: the first argument that is not `""`. -/
def cmpOr (a b : GoString) : GoString := if a ≠ [] then a else b

/-- `func Get(r *http.Request) string`. Both arguments of `cmp.Or` are evaluated before the
call, so the slice expression is evaluated (and may panic) whatever the header holds. -/
def ip.Get (r : Request) : Option GoString :=
  let a := Header.Get r.Header (str "X-Envoy-External-Address")
  match sliceTo r.RemoteAddr (LastIndex r.RemoteAddr colon) with
  | none => none
  | some b => some (cmpOr a b)

/-! ## net/netip

`uint64` values are `Nat`s below `2 ^ 64`; shifts and complements are taken modulo `2 ^ 64`. -/

/-- Conversion to `uint8`. -/
def byteOf (n : Nat) : Byte := Fin.ofNat n

/-- `x >> n` on `uint64` (0 once `n ≥ 64`). -/
def shr64 (x n : Nat) : Nat := x >>> n

/-- `x << n` on `uint64` (0 once `n ≥ 64`). -/
def shl64 (x n : Nat) : Nat := (x <<< n) % 2 ^ 64

/-- `^x` on `uint64`. -/
def not64 (x : Nat) : Nat := 2 ^ 64 - 1 - x % 2 ^ 64

/-- The field `z` of `netip.Addr`: `z0` for the zero `Addr`, `z4` for IPv4, `z6noz` for IPv6
without a zone, and the interned zone name otherwise. -/
inductive Zone where
  | z0
  | z4
  | z6noz
  | zone (name : GoString)
  deriving DecidableEq, Repr

/-- `netip.Addr`: the 128-bit `addr` as its halves `hi` and `lo`, and `z`. -/
structure Addr where
  hi : Nat
  lo : Nat
  z : Zone
  deriving DecidableEq, Repr

/-- `netip.AddrFrom4(addr [4]byte)`. -/
def AddrFrom4 (a b c d : Byte) : Addr :=
  { hi := 0
    lo := 0xffff00000000 ||| (a.val <<< 24) ||| (b.val <<< 16) ||| (c.val <<< 8) ||| d.val
    z := Zone.z4 }

/-- `beUint64(b []byte)`: big-endian value of eight bytes. -/
def beUint64 (b : List Byte) : Nat :=
  (b.getD 7 0).val ||| ((b.getD 6 0).val <<< 8) ||| ((b.getD 5 0).val <<< 16) |||
    ((b.getD 4 0).val <<< 24) ||| ((b.getD 3 0).val <<< 32) ||| ((b.getD 2 0).val <<< 40) |||
    ((b.getD 1 0).val <<< 48) ||| ((b.getD 0 0).val <<< 56)

/-- `netip.AddrFrom16(addr [16]byte)`. -/
def AddrFrom16 (addr : List Byte) : Addr :=
  { hi := beUint64 (addr.take 8), lo := beUint64 (addr.drop 8), z := Zone.z6noz }

/-- `ip.Is4()`. -/
def Addr.Is4 (ip : Addr) : Bool := ip.z = Zone.z4

/-- `ip.Is6()`. -/
def Addr.Is6 (ip : Addr) : Bool := ip.z ≠ Zone.z0 ∧ ip.z ≠ Zone.z4

/-- `ip.Is4In6()`. -/
def Addr.Is4In6 (ip : Addr) : Bool := ip.Is6 && ip.hi = 0 && shr64 ip.lo 32 = 0xffff

/-- `ip.Unmap()`. -/
def Addr.Unmap (ip : Addr) : Addr := if ip.Is4In6 then { ip with z := Zone.z4 } else ip

/-- `ip.WithZone(zone)`. -/
def Addr.WithZone (ip : Addr) (zone : GoString) : Addr :=
  if !ip.Is6 then ip
  else if zone = [] then { ip with z := Zone.z6noz }
  else { ip with z := Zone.zone zone }

/-- `ip.Zone()`. -/
def Addr.Zone (ip : Addr) : GoString :=
  match ip.z with
  | Zone.zone name => name
  | _ => []

/-- `ip.v4(i)`: `uint8(ip.addr.lo >> ((3 - i) * 8))`. -/
def Addr.v4 (ip : Addr) (i : Nat) : Nat := (shr64 ip.lo ((3 - i) * 8)) % 2 ^ 8

/-- `ip.v6(i)`: byte `i` of the sixteen. -/
def Addr.v6 (ip : Addr) (i : Nat) : Nat :=
  (shr64 (if (i / 8) % 2 = 0 then ip.hi else ip.lo) ((7 - i % 8) * 8)) % 2 ^ 8

/-- `ip.v6u16(i)`: 16-bit group `i` of the eight. -/
def Addr.v6u16 (ip : Addr) (i : Nat) : Nat :=
  (shr64 (if (i / 4) % 2 = 0 then ip.hi else ip.lo) ((3 - i % 4) * 16)) % 2 ^ 16

/-- `ip.IsLoopback()`. -/
def Addr.IsLoopback (ip : Addr) : Bool :=
  let ip := if ip.Is4In6 then ip.Unmap else ip
  if ip.Is4 then ip.v4 0 = 127
  else if ip.Is6 then ip.hi = 0 ∧ ip.lo = 1
  else false

/-- `ip.IsPrivate()`: 10.0.0.0/8, 172.16.0.0/12, 192.168.0.0/16 and fc00::/7. -/
def Addr.IsPrivate (ip : Addr) : Bool :=
  let ip := if ip.Is4In6 then ip.Unmap else ip
  if ip.Is4 then
    ip.v4 0 = 10 ∨ (ip.v4 0 = 172 ∧ ip.v4 1 &&& 0xf0 = 16) ∨ (ip.v4 0 = 192 ∧ ip.v4 1 = 168)
  else if ip.Is6 then ip.v6 0 &&& 0xfe = 0xfc
  else false

/-- `mask6(n)`: the 128-bit mask with the top `n` bits set, as its halves. -/
def mask6 (n : Nat) : Nat × Nat :=
  (not64 (shr64 (2 ^ 64 - 1) n), shl64 (2 ^ 64 - 1) (128 - n))

/-- `ip.withoutZone()`. -/
def Addr.withoutZone (ip : Addr) : Addr :=
  if !ip.Is6 then ip else { ip with z := Zone.z6noz }

/-- `ip.Prefix(b)` followed by `.Addr()`: the address with all but its top `b` bits zeroed and
without zone; `none` is the error (negative or too large `b`). On the zero `Addr` the result is
the zero prefix, whose address is the zero `Addr`. -/
def Addr.Prefix (ip : Addr) (b : Int) : Option Addr :=
  if b < 0 then none
  else
    match ip.z with
    | Zone.z0 => some { hi := 0, lo := 0, z := Zone.z0 }
    | Zone.z4 =>
      if b > 32 then none
      else
        let effectiveBits := b.toNat + 96
        some (Addr.withoutZone { ip with hi := ip.hi &&& (mask6 effectiveBits).1,
                                         lo := ip.lo &&& (mask6 effectiveBits).2 })
    | _ =>
      if b > 128 then none
      else
        let effectiveBits := b.toNat
        some (Addr.withoutZone { ip with hi := ip.hi &&& (mask6 effectiveBits).1,
                                         lo := ip.lo &&& (mask6 effectiveBits).2 })

/-- The byte of the decimal or hexadecimal digit `d` (`"0123456789abcdef"[d]`). -/
def hexDigit (d : Nat) : Byte := if d < 10 then byteOf (48 + d) else byteOf (87 + d)

/-- `appendDecimal(b, x uint8)`. -/
def appendDecimal (b : GoString) (x : Nat) : GoString :=
  let b := if x ≥ 100 then b ++ [hexDigit (x / 100)] else b
  let b := if x ≥ 10 then b ++ [hexDigit (x / 10 % 10)] else b
  b ++ [hexDigit (x % 10)]

/-- `appendHex(b, x uint16)`. -/
def appendHex (b : GoString) (x : Nat) : GoString :=
  let b := if x ≥ 0x1000 then b ++ [hexDigit (x >>> 12)] else b
  let b := if x ≥ 0x100 then b ++ [hexDigit (x >>> 8 &&& 0xf)] else b
  let b := if x ≥ 0x10 then b ++ [hexDigit (x >>> 4 &&& 0xf)] else b
  b ++ [hexDigit (x &&& 0xf)]

/-- `ip.appendTo4(ret)`. -/
def Addr.appendTo4 (ip : Addr) (ret : GoString) : GoString :=
  let ret := appendDecimal ret (ip.v4 0)
  let ret := ret ++ [dot]
  let ret := appendDecimal ret (ip.v4 1)
  let ret := ret ++ [dot]
  let ret := appendDecimal ret (ip.v4 2)
  let ret := ret ++ [dot]
  appendDecimal ret (ip.v4 3)

/-- `ip.string4()`. -/
def Addr.string4 (ip : Addr) : GoString := ip.appendTo4 []

/-- The inner loop of `appendTo6`: `for j < 8 && ip.v6u16(j) == 0 { j++ }`, with fuel. -/
def zeroRunEnd (ip : Addr) : Nat → Nat → Nat
  | 0, j => j
  | fuel + 1, j => if j < 8 ∧ ip.v6u16 j = 0 then zeroRunEnd ip fuel (j + 1) else j

/-- The first loop of `appendTo6`: the longest run of at least two zero groups, as
`(zeroStart, zeroEnd)`, both 255 when there is none. The `Nat` argument counts the
iterations left and `i` is the loop variable. -/
def findZeroRun (ip : Addr) : Nat → Nat → Nat × Nat → Nat × Nat
  | 0, _, run => run
  | fuel + 1, i, (zeroStart, zeroEnd) =>
    if i < 8 then
      let j := zeroRunEnd ip 8 i
      let l := j - i
      if l ≥ 2 ∧ l > (zeroEnd + 256 - zeroStart) % 2 ^ 8 then findZeroRun ip fuel (i + 1) (i, j)
      else findZeroRun ip fuel (i + 1) (zeroStart, zeroEnd)
    else (zeroStart, zeroEnd)

/-- The second loop of `appendTo6`: the groups, with `::` in place of the zero run. -/
def appendGroups (ip : Addr) (zeroStart zeroEnd : Nat) : Nat → Nat → GoString → GoString
  | 0, _, ret => ret
  | fuel + 1, i, ret =>
    if i < 8 then
      if i = zeroStart then
        let ret := ret ++ [colon, colon]
        let i := zeroEnd
        if i ≥ 8 then ret
        else appendGroups ip zeroStart zeroEnd fuel (i + 1) (appendHex ret (ip.v6u16 i))
      else if i > 0 then
        appendGroups ip zeroStart zeroEnd fuel (i + 1) (appendHex (ret ++ [colon]) (ip.v6u16 i))
      else appendGroups ip zeroStart zeroEnd fuel (i + 1) (appendHex ret (ip.v6u16 i))
    else ret

/-- `ip.appendTo6(ret)`. -/
def Addr.appendTo6 (ip : Addr) (ret : GoString) : GoString :=
  let run := findZeroRun ip 8 0 (255, 255)
  let ret := appendGroups ip run.1 run.2 8 0 ret
  if ip.z ≠ Zone.z6noz then ret ++ [percent] ++ ip.Zone else ret

/-- `ip.appendTo4In6(ret)`. -/
def Addr.appendTo4In6 (ip : Addr) (ret : GoString) : GoString :=
  let ret := ret ++ str "::ffff:"
  let ret := ip.Unmap.appendTo4 ret
  if ip.z ≠ Zone.z6noz then ret ++ [percent] ++ ip.Zone else ret

/-- `ip.String()`. -/
def Addr.String (ip : Addr) : GoString :=
  match ip.z with
  | Zone.z0 => str "invalid IP"
  | Zone.z4 => ip.string4
  | _ => if ip.Is4In6 then ip.appendTo4In6 [] else ip.appendTo6 []

/-! ### `netip.ParseAddr` -/

/-- The loop of `parseIPv4Fields` over `s = in[off:end]`. `rest` is `s[i:]`, `prev` is
`s[i-1]` (read only when `i ≠ 0`), and `i == len(s) - 1` holds exactly when nothing follows
the current byte. `none` is a `parseAddrError`. -/
def parseIPv4FieldsLoop : GoString → Nat → Byte → Nat → Nat → Nat → List Byte →
    Option (List Byte)
  | [], _, _, val, pos, _, fields =>
    if pos < 3 then none else some (fields.set 3 (byteOf val))
  | c :: rest, i, prev, val, pos, digLen, fields =>
    if 48 ≤ c.val ∧ c.val ≤ 57 then
      if digLen = 1 ∧ val = 0 then none
      else
        let val := val * 10 + c.val - 48
        let digLen := digLen + 1
        if val > 255 then none
        else parseIPv4FieldsLoop rest (i + 1) c val pos digLen fields
    else if c = dot then
      if i = 0 ∨ rest = [] ∨ prev = dot then none
      else if pos = 3 then none
      else parseIPv4FieldsLoop rest (i + 1) c 0 (pos + 1) 0 (fields.set pos (byteOf val))
    else none

/-- `parseIPv4Fields(in, off, end, fields)` on `s = in[off:end]`: the four fields. -/
def parseIPv4Fields (s : GoString) : Option (List Byte) :=
  parseIPv4FieldsLoop s 0 0 0 0 0 [0, 0, 0, 0]

/-- `parseIPv4(s)`. -/
def parseIPv4 (s : GoString) : Option Addr :=
  match parseIPv4Fields s with
  | none => none
  | some fields =>
    some (AddrFrom4 (fields.getD 0 0) (fields.getD 1 0) (fields.getD 2 0) (fields.getD 3 0))

/-- The hex-number loop of `parseIPv6`: reads hex digits of `s` from offset `off` on, with
`acc` a `uint32`. Returns the final `off`, `acc` and `s[off:]`; `none` is the error for a
fifth digit or a value above `0xffff`. -/
def parseHex : GoString → Nat → Nat → Option (Nat × Nat × GoString)
  | [], off, acc => some (off, acc, [])
  | c :: rest, off, acc =>
    let step (acc1 : Nat) : Option (Nat × Nat × GoString) :=
      if off > 3 then none
      else if acc1 > 0xffff then none
      else parseHex rest (off + 1) acc1
    if 48 ≤ c.val ∧ c.val ≤ 57 then step (((acc <<< 4) + (c.val - 48)) % 2 ^ 32)
    else if 97 ≤ c.val ∧ c.val ≤ 102 then step (((acc <<< 4) + (c.val - 97 + 10)) % 2 ^ 32)
    else if 65 ≤ c.val ∧ c.val ≤ 70 then step (((acc <<< 4) + (c.val - 65 + 10)) % 2 ^ 32)
    else some (off, acc, c :: rest)

/-- `ip[i:i+4] = fields`. -/
def setFields (ip : List Byte) (i : Nat) (fields : List Byte) : List Byte :=
  (((ip.set i (fields.getD 0 0)).set (i + 1) (fields.getD 1 0)).set (i + 2)
    (fields.getD 2 0)).set (i + 3) (fields.getD 3 0)

/-- The main loop of `parseIPv6`, `for i < 16 { ... }`, with the number of iterations left as
fuel (each iteration that does not leave the loop adds 2 to `i`). Returns `s`, `i`,
`ellipsis` and `ip` at the exit of the loop. -/
def parseIPv6Loop : Nat → GoString → Nat → Int → List Byte →
    Option (GoString × Nat × Int × List Byte)
  | 0, s, i, ellipsis, ip => some (s, i, ellipsis, ip)
  | fuel + 1, s, i, ellipsis, ip =>
    if ¬ i < 16 then some (s, i, ellipsis, ip)
    else
      match parseHex s 0 0 with
      | none => none
      | some (off, acc, tail) =>
        if off = 0 then none
        else if tail.head? = some dot then
          if ellipsis < 0 ∧ i ≠ 12 then none
          else if i + 4 > 16 then none
          else
            match parseIPv4Fields s with
            | none => none
            | some fields => some ([], i + 4, ellipsis, setFields ip i fields)
        else
          let ip := (ip.set i (byteOf (acc >>> 8))).set (i + 1) (byteOf acc)
          let i := i + 2
          match tail with
          | [] => some ([], i, ellipsis, ip)
          | c :: s1 =>
            if c ≠ colon then none
            else
              match s1 with
              | [] => none
              | c1 :: s2 =>
                if c1 = colon then
                  if ellipsis ≥ 0 then none
                  else
                    match s2 with
                    | [] => some ([], i, (i : Int), ip)
                    | _ => parseIPv6Loop fuel s2 i (i : Int) ip
                else parseIPv6Loop fuel s1 i ellipsis ip

/-- `for j := i - 1; j >= ellipsis; j-- { ip[j+n] = ip[j] }`; the `Nat` argument is `j + 1`. -/
def shiftTail (n ellipsis : Nat) : Nat → List Byte → List Byte
  | 0, ip => ip
  | j + 1, ip => if j ≥ ellipsis then shiftTail n ellipsis j (ip.set (j + n) (ip.getD j 0)) else ip

/-- `clear(ip[lo:hi])`; the `Nat` argument is the number of bytes left to clear. -/
def clearRange : Nat → Nat → List Byte → List Byte
  | 0, _, ip => ip
  | k + 1, lo, ip => clearRange k (lo + 1) (ip.set lo 0)

/-- `bytealg.IndexByteString(s, c)`: the first index of `c` in `s`, `none` for `-1`. -/
def IndexByte (s : GoString) (c : Byte) : Option Nat :=
  let i := s.indexOf c
  if i < s.length then some i else none

/-- `parseIPv6(in)`. -/
def parseIPv6 (input : GoString) : Option Addr :=
  let split : Option (GoString × GoString) :=
    match IndexByte input percent with
    | some i => if input.drop (i + 1) = [] then none else some (input.take i, input.drop (i + 1))
    | none => some (input, [])
  match split with
  | none => none
  | some (s, zone) =>
    let leading := decide (s.length ≥ 2 ∧ s.get? 0 = some colon ∧ s.get? 1 = some colon)
    let ellipsis : Int := if leading then 0 else -1
    let s := if leading then s.drop 2 else s
    if leading ∧ s.length = 0 then
      some (Addr.WithZone { hi := 0, lo := 0, z := Zone.z6noz } zone)
    else
      match parseIPv6Loop 8 s 0 ellipsis (List.replicate 16 0) with
      | none => none
      | some (s, i, ellipsis, ip) =>
        if s.length ≠ 0 then none
        else if i < 16 then
          if ellipsis < 0 then none
          else
            let n := 16 - i
            let ip := shiftTail n ellipsis.toNat i ip
            let ip := clearRange n ellipsis.toNat ip
            some ((AddrFrom16 ip).WithZone zone)
        else if ellipsis ≥ 0 then none
        else some ((AddrFrom16 ip).WithZone zone)

/-- The scan of `ParseAddr`: the first of `'.'`, `':'` and `'%'` in `s` decides. -/
def ParseAddrScan (s : GoString) : GoString → Option Addr
  | [] => none
  | c :: rest =>
    if c = dot then parseIPv4 s
    else if c = colon then parseIPv6 s
    else if c = percent then none
    else ParseAddrScan s rest

/-- `netip.ParseAddr(s)`; `none` is an error. -/
def ParseAddr (s : GoString) : Option Addr := ParseAddrScan s s

/-! ## ip/ip.go: `Anonymize` -/

/-- The text `a.b.c.d` of four octets in decimal. -/
def dottedQuad (a b c d : Nat) : GoString :=
  appendDecimal (appendDecimal (appendDecimal (appendDecimal [] a ++ [dot]) b ++ [dot]) c ++ [dot]) d


/-- The first statement of `Anonymize`: `ip[1 : len(ip)-1]` when `ip` is longer than 2 bytes,
starts with `'['` and ends with `']'`. -/
def stripBrackets (ip : GoString) : GoString :=
  if ip.length > 2 ∧ ip.get? 0 = some lbracket ∧ ip.get? (ip.length - 1) = some rbracket
  then (ip.take (ip.length - 1)).drop 1
  else ip

/-- `func Anonymize(ctx context.Context, ip string) string`, its result; the warnings it logs
do not bear on the result. -/
def ip.Anonymize (ip : GoString) : GoString :=
  let ip := stripBrackets ip
  match ParseAddr ip with
  | none => ip
  | some parsedIP =>
    if parsedIP.IsPrivate || parsedIP.IsLoopback then ip
    else if parsedIP.Is4 then
      match parsedIP.Prefix 16 with
      | some prefixAddr => prefixAddr.String
      | none => ip
    else
      match parsedIP.Prefix 32 with
      | some prefixAddr => prefixAddr.String
      | none => ip

/-! ## crypto/subtle -/

/-- `subtle.ConstantTimeByteEq(x, y uint8) int`: `int((uint32(x^y) - 1) >> 31)`. -/
def ConstantTimeByteEq (x y : Nat) : Nat :=
  ((((x ^^^ y) % 2 ^ 8) + 2 ^ 32 - 1) % 2 ^ 32) >>> 31

/-- The loop of `ConstantTimeCompare`: `v |= x[i] ^ y[i]` over the common indices. -/
def compareLoop : GoString → GoString → Nat → Nat
  | a :: x, b :: y, v => compareLoop x y ((v ||| (a.val ^^^ b.val)) % 2 ^ 8)
  | _, _, v => v

/-- `subtle.ConstantTimeCompare(x, y []byte) int`: 1 when the slices are equal, else 0;
0 at once when the lengths differ. -/
def ConstantTimeCompare (x y : GoString) : Nat :=
  if x.length ≠ y.length then 0
  else ConstantTimeByteEq (compareLoop x y 0) 0

/-! ## golang.org/x/time/rate

The limiter the repository imports. `float64` quantities (`Limit`, the token count) are
exact rationals here; a `time.Time` is its number of nanoseconds since the zero time and a
`time.Duration` its number of nanoseconds. -/

/-- `rate.Limit`: events per second. -/
abbrev rate.Limit := ℚ

/-- `rate.Inf = Limit(math.MaxFloat64)`, the infinite rate limit. -/
def rate.Inf : rate.Limit := (2 ^ 53 - 1) * 2 ^ 971

/-- `math.MaxInt64`, the largest `time.Duration`. -/
def maxDuration : Int := 2 ^ 63 - 1

/-- `rate.InfDuration = time.Duration(math.MaxInt64)`. -/
def rate.InfDuration : Int := maxDuration

/-- Conversion of a `float64` to `int64`: truncation toward zero. -/
def truncate (q : ℚ) : Int := if 0 ≤ q then ⌊q⌋ else ⌈q⌉

/-- `limit.tokensFromDuration(d)`: `0` when `limit <= 0`, else `d.Seconds() * limit`. -/
def rate.tokensFromDuration (limit : rate.Limit) (d : Int) : ℚ :=
  if limit ≤ 0 then 0 else ((d : ℚ) / 10 ^ 9) * limit

/-- `limit.durationFromTokens(tokens)`: `InfDuration` when `limit <= 0` or when the duration
exceeds `math.MaxInt64`, else `time.Duration((tokens / limit) * float64(time.Second))`. -/
def rate.durationFromTokens (limit : rate.Limit) (tokens : ℚ) : Int :=
  if limit ≤ 0 then rate.InfDuration
  else
    let duration := (tokens / limit) * 10 ^ 9
    if duration > (maxDuration : ℚ) then rate.InfDuration else truncate duration

/-- `rate.Limiter` (without its mutex). -/
structure rate.Limiter where
  limit : rate.Limit
  burst : Int
  tokens : ℚ
  last : Nat
  lastEvent : Int
  deriving DecidableEq

/-- `rate.NewLimiter(r, b)`: a bucket of size `b`, initially full. -/
def rate.NewLimiter (r : rate.Limit) (b : Int) : rate.Limiter :=
  { limit := r, burst := b, tokens := (b : ℚ), last := 0, lastEvent := 0 }

/-- `t.Sub(u)` for `u ≤ t`: the elapsed nanoseconds, saturating at the largest duration. -/
def timeSub (t u : Nat) : Int := min ((t : Int) - (u : Int)) maxDuration

/-- `lim.advance(t)`: the number of tokens at time `t`; `lim` is not changed. -/
def rate.Limiter.advance (lim : rate.Limiter) (t : Nat) : ℚ :=
  let last := if t < lim.last then t else lim.last
  let elapsed := timeSub t last
  let delta := rate.tokensFromDuration lim.limit elapsed
  let tokens := lim.tokens + delta
  if tokens > (lim.burst : ℚ) then (lim.burst : ℚ) else tokens

/-- `lim.reserveN(t, n, maxFutureReserve)`: whether the reservation is granted and the
limiter afterwards. -/
def rate.Limiter.reserveN (lim : rate.Limiter) (t : Nat) (n : Int) (maxFutureReserve : Int) :
    Bool × rate.Limiter :=
  if lim.limit = rate.Inf then (true, lim)
  else if lim.limit = 0 then
    if lim.burst ≥ n then (true, { lim with burst := lim.burst - n }) else (false, lim)
  else
    let tokens := lim.advance t - (n : ℚ)
    let waitDuration := if tokens < 0 then rate.durationFromTokens lim.limit (-tokens) else 0
    let ok := decide (n ≤ lim.burst ∧ waitDuration ≤ maxFutureReserve)
    if ok then
      (true, { lim with last := t, tokens := tokens, lastEvent := (t : Int) + waitDuration })
    else (false, lim)

/-- `lim.Allow()`, which is `lim.AllowN(time.Now(), 1)`, at the clock reading `now`. -/
def rate.Limiter.Allow (lim : rate.Limiter) (now : Nat) : Bool × rate.Limiter :=
  lim.reserveN now 1 0

/-! ## rateLimit.go -/

/-- `type rateLimiter struct`: `keys` maps a key to a pointer to its limiter, a pointer being
an index into the heap of allocated limiters. -/
structure rateLimiter where
  keys : List (GoString × Nat)
  rate : rate.Limit
  burst : Int

/-- `newRateLimiter(r, b)`. -/
def newRateLimiter (r : rate.Limit) (b : Int) : rateLimiter :=
  { keys := [], rate := r, burst := b }

/-- `(*rateLimiter).Add(key)`, one locked section: allocate a limiter, store it under `key`
and return it. -/
def rateLimiter.Add (i : rateLimiter) (heap : List rate.Limiter) (key : GoString) :
    Nat × rateLimiter × List rate.Limiter :=
  let limiter := heap.length
  (limiter, { i with keys := (key, limiter) :: i.keys },
    heap ++ [rate.NewLimiter i.rate i.burst])

/-- `(*rateLimiter).GetLimiter(key)` run without interference: look `key` up under the lock;
when it is absent release the lock and call `Add`. -/
def rateLimiter.GetLimiter (i : rateLimiter) (heap : List rate.Limiter) (key : GoString) :
    Nat × rateLimiter × List rate.Limiter :=
  match i.keys.lookup key with
  | some limiter => (limiter, i, heap)
  | none => i.Add heap key

/-! ### Interleaved calls of `GetLimiter`

`GetLimiter` holds the lock while it looks the key up and releases it before it calls `Add`,
which takes the lock again. A call is therefore two atomic sections, and sections of
different calls interleave. -/

/-- Where a call `GetLimiter(key)` stands: before its lookup, after a lookup that missed
(the lock released, `Add` not yet entered), or returned with a limiter. -/
inductive Caller where
  | start
  | missed
  | returned (limiter : Nat)
  deriving DecidableEq, Repr

/-- The next locked section of one call: the lookup of `GetLimiter`, or the body of `Add`. -/
def Caller.step (key : GoString) (c : Caller) (reg : rateLimiter) (heap : List rate.Limiter) :
    Caller × rateLimiter × List rate.Limiter :=
  match c with
  | Caller.start =>
    match reg.keys.lookup key with
    | some limiter => (Caller.returned limiter, reg, heap)
    | none => (Caller.missed, reg, heap)
  | Caller.missed =>
    match reg.Add heap key with
    | (limiter, reg1, heap1) => (Caller.returned limiter, reg1, heap1)
  | Caller.returned limiter => (Caller.returned limiter, reg, heap)

/-- A registry, the heap of limiters and the calls in flight. -/
structure Sys where
  reg : rateLimiter
  heap : List rate.Limiter
  callers : List Caller

/-- Caller number `t` runs its next locked section. -/
def Sys.step (key : GoString) (s : Sys) (t : Nat) : Sys :=
  match s.callers.get? t with
  | none => s
  | some c =>
    match c.step key s.reg s.heap with
    | (c1, reg1, heap1) => { reg := reg1, heap := heap1, callers := s.callers.set t c1 }

/-- An interleaving: the callers take their sections in the order of `schedule`. -/
def Sys.run (key : GoString) (s : Sys) (schedule : List Nat) : Sys :=
  schedule.foldl (Sys.step key) s

/-! ## The world the handlers act on -/

/-- The mutable state around the handlers. -/
structure World where
  /-- The calls made on the default logger. -/
  logs : List LogCall
  /-- The reading of `time.Now()`. -/
  now : Nat
  /-- The allocated `rate.Limiter`s. -/
  heap : List rate.Limiter
  /-- The registry of the `RateLimiter` middleware. -/
  limiter : rateLimiter
  /-- The calls received by the recording terminal handler. -/
  served : List (ResponseWriter × Request)

/-- The world right after `RateLimiter(r, b)` has built its registry, at clock reading `now`. -/
def World.start (r : rate.Limit) (b : Int) (now : Nat) : World :=
  { logs := [], now := now, heap := [], limiter := newRateLimiter r b, served := [] }

/-- A request from a TCP peer, as `net/http` hands it to a handler. -/
def tcpRequest (hdr : Header) : Request :=
  { Method := str "GET", URL := str "/", Header := hdr, RemoteAddr := str "192.0.2.1:1234",
    ctx := Context.background }

/-- A request with a wrong API key whose `RemoteAddr` is empty, as `http.NewRequest` builds
it. -/
def wrongKeyRequest : Request :=
  { Method := str "GET", URL := str "/", Header := [(str "X-Api-Key", [str "wrong"])],
    RemoteAddr := [], ctx := Context.background }

/-- `http.Handler`: `ServeHTTP(w, r)` as a function of the world; `none` is a panic. -/
abbrev Handler := ResponseWriter → Request → World → Option (ResponseWriter × World)

/-- `slog.WarnContext(ctx, msg, args...)`. -/
def World.warn (σ : World) (ctx : Context) (msg : GoString) (args : List (GoString × GoString)) :
    World :=
  { σ with logs := σ.logs ++ [{ ctx := ctx, msg := msg, args := args }] }

/-- A terminal handler that records the call it receives and writes nothing. -/
def recordNext : Handler :=
  fun w r σ => some (w, { σ with served := σ.served ++ [(w, r)] })

/-- `func RateLimiter(r rate.Limit, b int) func(next http.Handler) http.Handler`, the handler
it builds around `next`; the registry `newRateLimiter(r, b)` it closes over is `σ.limiter`.
A registry entry that points outside the heap, which Go cannot hold, makes the call fail. -/
def RateLimiter (next : Handler) : Handler :=
  fun w r σ =>
    match ip.Get r with
    | none => none
    | some caller_ip =>
      match σ.limiter.GetLimiter σ.heap caller_ip with
      | (limiter, reg, heap) =>
        match heap.get? limiter with
        | none => none
        | some lim =>
          let res := lim.Allow σ.now
          let σ1 : World := { σ with limiter := reg, heap := heap.set limiter res.2 }
          if !res.1 then
            some (httpError w (StatusText StatusTooManyRequests) StatusTooManyRequests,
              σ1.warn r.ctx (str "Too Many Requests")
                [(str "method", r.Method), (str "url", r.URL), (str "ip", caller_ip)])
          else next w r σ1

/-- The world after `Add(key)`. -/
def World.addLimiter (σ : World) (key : GoString) : World :=
  { σ with limiter := (σ.limiter.Add σ.heap key).2.1, heap := (σ.limiter.Add σ.heap key).2.2 }

/-- Serving the requests one after the other, with no clock tick in between. -/
def serveAll (h : Handler) : List (ResponseWriter × Request) → World →
    Option (List ResponseWriter × World)
  | [], σ => some ([], σ)
  | (w, r) :: rest, σ =>
    match h w r σ with
    | none => none
    | some (w1, σ1) =>
      match serveAll h rest σ1 with
      | none => none
      | some (ws, σ2) => some (w1 :: ws, σ2)

/-! ## requestId.go: `RequestID` -/

/-- `func RequestID(next http.Handler) http.Handler`; `requestId` is what
`generateRequestID()` returned for this request. -/
def RequestID (requestId : GoString) (next : Handler) : Handler :=
  fun w r σ => next w { r with ctx := withRequestID r.ctx requestId } σ

/-! ## admin.go -/

/-- `func Admin(adminKey string) func(next http.Handler) http.Handler`. The arguments of
`slog.WarnContext`, `ip.Get(r)` among them, are evaluated before the warning is logged. -/
def Admin (adminKey : GoString) (next : Handler) : Handler :=
  let adminKeyBytes := adminKey
  fun w r σ =>
    let apiKeyHeader := Header.Get r.Header (str "X-Api-Key")
    if ConstantTimeCompare apiKeyHeader adminKeyBytes = 0 then
      match ip.Get r with
      | none => none
      | some addr =>
        some (httpError w (StatusText StatusForbidden) StatusForbidden,
          σ.warn r.ctx (str "Invalid API key")
            [(str "method", r.Method), (str "url", r.URL), (str "ip", addr)])
    else next w r σ

/-- The limiter admits exactly `m` further events at the clock reading `now`: its rate is at
most `10 ^ 9` per second, and either the rate is 0 and `m` is what is left of the burst, or
`m` tokens are in the bucket at `now`. -/
def Holds (lim : rate.Limiter) (now : Nat) (m : Nat) : Prop :=
  lim.limit ≤ 10 ^ 9 ∧
    ((lim.limit = 0 ∧ lim.burst = (m : Int)) ∨
     (lim.limit ≠ 0 ∧ lim.advance now = (m : ℚ) ∧ (m : Int) ≤ lim.burst))

/-! ## Lemmas -/

theorem applyLoop_eq_foldr {α : Type} (mws : List (Middleware α)) :
    ∀ (i : Nat) (h : α), i ≤ mws.length →
      applyLoop mws i h = (mws.take i).foldr (fun m acc => m acc) h := by
  intro i
  induction i with
  | zero => intro h _; simp [applyLoop]
  | succ i ih =>
    intro h hi
    have hlt : i < mws.length := hi
    have hget : mws.get? i = some (mws.get ⟨i, hlt⟩) := List.get?_eq_get hlt
    rw [applyLoop, hget]
    simp only
    rw [ih _ (Nat.le_of_lt hlt)]
    have htake : mws.take (i + 1) = mws.take i ++ [mws.get ⟨i, hlt⟩] := by
      simp [List.take_succ, List.get?_eq_get hlt]
    rw [htake, List.foldr_append]
    rfl

/-! ### `strings.LastIndex` and `ip.Get` -/

theorem LastIndexLoop_range (s : GoString) (c : Byte) :
    ∀ n : Nat, LastIndexLoop s c n = -1 ∨
      (0 ≤ LastIndexLoop s c n ∧ LastIndexLoop s c n < (n : Int)) := by
  intro n
  induction n with
  | zero => left; rfl
  | succ i ih =>
    unfold LastIndexLoop
    by_cases h : s.get? i = some c
    · right
      rw [if_pos h]
      constructor <;> omega
    · rw [if_neg h]
      rcases ih with h1 | ⟨h1, h2⟩
      · left; exact h1
      · right
        constructor
        · exact h1
        · push_cast; omega

theorem LastIndexLoop_eq_neg_one (s : GoString) (c : Byte) :
    ∀ n : Nat, LastIndexLoop s c n = -1 ↔ ∀ i, i < n → s.get? i ≠ some c := by
  intro n
  induction n with
  | zero => simp [LastIndexLoop]
  | succ k ih =>
    unfold LastIndexLoop
    by_cases h : s.get? k = some c
    · rw [if_pos h]
      constructor
      · intro hk; omega
      · intro hall; exact absurd h (hall k (Nat.lt_succ_self k))
    · rw [if_neg h, ih]
      constructor
      · intro hall i hi
        rcases Nat.lt_succ_iff_lt_or_eq.mp hi with h1 | h1
        · exact hall i h1
        · rw [h1]; exact h
      · intro hall i hi
        exact hall i (Nat.lt_succ_of_lt hi)

theorem LastIndex_eq_neg_one_iff (s : GoString) (c : Byte) :
    LastIndex s c = -1 ↔ c ∉ s := by
  unfold LastIndex
  rw [LastIndexLoop_eq_neg_one]
  constructor
  · intro hall hmem
    obtain ⟨n, hn, hget⟩ := List.getElem_of_mem hmem
    apply hall n hn
    rw [List.get?_eq_getElem?, List.getElem?_eq_getElem hn, hget]
  · intro hnot i hi hget
    apply hnot
    rw [List.get?_eq_getElem?, List.getElem?_eq_getElem hi] at hget
    have : s[i] = c := by simpa using hget
    rw [← this]
    exact List.getElem_mem hi

/-- `ip.Get` panics exactly when `RemoteAddr` holds no `':'`. -/
theorem ip_Get_eq_none_iff (r : Request) : ip.Get r = none ↔ colon ∉ r.RemoteAddr := by
  rw [← LastIndex_eq_neg_one_iff]
  unfold ip.Get sliceTo
  have hr := LastIndexLoop_range r.RemoteAddr colon r.RemoteAddr.length
  change LastIndex r.RemoteAddr colon = -1 ∨
    (0 ≤ LastIndex r.RemoteAddr colon ∧
      LastIndex r.RemoteAddr colon < (r.RemoteAddr.length : Int)) at hr
  rcases hr with h | ⟨h1, h2⟩
  · rw [h]
    simp
  · have hle : 0 ≤ LastIndex r.RemoteAddr colon ∧
        LastIndex r.RemoteAddr colon ≤ (r.RemoteAddr.length : Int) := ⟨h1, by omega⟩
    rw [if_pos hle]
    constructor
    · intro hc; cases hc
    · intro hc; omega

/-- When `RemoteAddr` holds a `':'`, `ip.Get` returns the header when it is not empty and
else `RemoteAddr` up to its last `':'`. -/
theorem ip_Get_of_colon (r : Request) (h : colon ∈ r.RemoteAddr) :
    ip.Get r = some (
      if Header.Get r.Header (str "X-Envoy-External-Address") ≠ []
      then Header.Get r.Header (str "X-Envoy-External-Address")
      else r.RemoteAddr.take (LastIndex r.RemoteAddr colon).toNat) := by
  have hne : LastIndex r.RemoteAddr colon ≠ -1 := by
    rw [Ne, LastIndex_eq_neg_one_iff]; exact fun hc => hc h
  have hr := LastIndexLoop_range r.RemoteAddr colon r.RemoteAddr.length
  change LastIndex r.RemoteAddr colon = -1 ∨
    (0 ≤ LastIndex r.RemoteAddr colon ∧
      LastIndex r.RemoteAddr colon < (r.RemoteAddr.length : Int)) at hr
  rcases hr with h0 | ⟨h1, h2⟩
  · exact absurd h0 hne
  · have hle : 0 ≤ LastIndex r.RemoteAddr colon ∧
        LastIndex r.RemoteAddr colon ≤ (r.RemoteAddr.length : Int) := ⟨h1, by omega⟩
    unfold ip.Get sliceTo cmpOr
    rw [if_pos hle]

/-! ### `subtle.ConstantTimeCompare` -/

theorem lor_eq_zero_iff (a b : Nat) : a ||| b = 0 ↔ a = 0 ∧ b = 0 := by
  constructor
  · intro h
    constructor
    · apply Nat.eq_of_testBit_eq
      intro i
      have := congrArg (fun n => Nat.testBit n i) h
      simp [Nat.testBit_or] at this
      simp [this.1]
    · apply Nat.eq_of_testBit_eq
      intro i
      have := congrArg (fun n => Nat.testBit n i) h
      simp [Nat.testBit_or] at this
      simp [this.2]
  · rintro ⟨rfl, rfl⟩
    simp

theorem compareLoop_eq_zero_iff :
    ∀ (x y : GoString) (v : Nat), x.length = y.length → v < 2 ^ 8 →
      (compareLoop x y v = 0 ↔ v = 0 ∧ x = y) := by
  intro x
  induction x with
  | nil =>
    intro y v hlen _
    cases y with
    | nil => simp [compareLoop]
    | cons b y => simp at hlen
  | cons a x ih =>
    intro y v hlen hv
    cases y with
    | nil => simp at hlen
    | cons b y =>
      have hlen1 : x.length = y.length := by simpa using hlen
      have hx : a.val ^^^ b.val < 2 ^ 8 := Nat.xor_lt_two_pow a.isLt b.isLt
      have hor : v ||| (a.val ^^^ b.val) < 2 ^ 8 := Nat.or_lt_two_pow hv hx
      unfold compareLoop
      rw [Nat.mod_eq_of_lt hor, ih y _ hlen1 hor, lor_eq_zero_iff, Nat.xor_eq_zero]
      constructor
      · rintro ⟨⟨h1, h2⟩, h3⟩
        exact ⟨h1, by rw [Fin.ext h2, h3]⟩
      · rintro ⟨h1, h2⟩
        injection h2 with h3 h4
        exact ⟨⟨h1, by rw [h3]⟩, h4⟩

theorem compareLoop_lt :
    ∀ (x y : GoString) (v : Nat), v < 2 ^ 8 → compareLoop x y v < 2 ^ 8 := by
  intro x
  induction x with
  | nil => intro y v hv; simpa [compareLoop] using hv
  | cons a x ih =>
    intro y v hv
    cases y with
    | nil => simpa [compareLoop] using hv
    | cons b y =>
      unfold compareLoop
      exact ih y _ (Nat.mod_lt _ (by norm_num))

theorem ConstantTimeByteEq_zero (v : Nat) (hv : v < 2 ^ 8) :
    ConstantTimeByteEq v 0 = if v = 0 then 1 else 0 := by
  unfold ConstantTimeByteEq
  by_cases h : v = 0
  · subst h; rfl
  · rw [if_neg h, Nat.xor_zero, Nat.mod_eq_of_lt hv, Nat.shiftRight_eq_div_pow]
    have h1 : (v + 2 ^ 32 - 1) % 2 ^ 32 = v - 1 := by
      norm_num at hv ⊢
      omega
    rw [h1]
    apply Nat.div_eq_of_lt
    norm_num at hv ⊢
    omega

/-- `ConstantTimeCompare` is 0 exactly on slices that differ. -/
theorem ConstantTimeCompare_eq_zero_iff (x y : GoString) :
    ConstantTimeCompare x y = 0 ↔ x ≠ y := by
  unfold ConstantTimeCompare
  by_cases hlen : x.length = y.length
  · rw [if_neg (by simpa using hlen),
      ConstantTimeByteEq_zero _ (compareLoop_lt x y 0 (by norm_num))]
    have h := compareLoop_eq_zero_iff x y 0 hlen (by norm_num)
    by_cases hxy : x = y
    · have h0 : compareLoop x y 0 = 0 := h.mpr ⟨rfl, hxy⟩
      rw [if_pos h0]
      simp [hxy]
    · have h0 : compareLoop x y 0 ≠ 0 := fun hc => hxy (h.mp hc).2
      rw [if_neg h0]
      simp [hxy]
  · rw [if_pos hlen]
    constructor
    · intro _ hxy; exact hlen (by rw [hxy])
    · intro _; rfl

/-! ### `Admin` -/

/-- What `Admin` does: on a header that equals the key it is `next`; on any other header it
evaluates `ip.Get`, logs the warning and answers 403 without `next`. -/
theorem Admin_eq (adminKey : GoString) (next : Handler) (w : ResponseWriter) (r : Request)
    (σ : World) :
    Admin adminKey next w r σ =
      if Header.Get r.Header (str "X-Api-Key") = adminKey then next w r σ
      else
        match ip.Get r with
        | none => none
        | some addr =>
          some (httpError w (str "Forbidden") 403,
            σ.warn r.ctx (str "Invalid API key")
              [(str "method", r.Method), (str "url", r.URL), (str "ip", addr)]) := by
  unfold Admin
  by_cases h : Header.Get r.Header (str "X-Api-Key") = adminKey
  · have h0 : ¬ ConstantTimeCompare (Header.Get r.Header (str "X-Api-Key")) adminKey = 0 := by
      rw [ConstantTimeCompare_eq_zero_iff]; simpa using h
    rw [if_pos h]
    show (if ConstantTimeCompare (Header.Get r.Header (str "X-Api-Key")) adminKey = 0
      then _ else next w r σ) = _
    rw [if_neg h0]
  · have h0 : ConstantTimeCompare (Header.Get r.Header (str "X-Api-Key")) adminKey = 0 := by
      rw [ConstantTimeCompare_eq_zero_iff]; exact h
    rw [if_neg h]
    show (if ConstantTimeCompare (Header.Get r.Header (str "X-Api-Key")) adminKey = 0
      then _ else next w r σ) = _
    rw [if_pos h0]
    rfl

/-! ### `rate.Limiter` -/

theorem rate_Inf_gt : (10 : ℚ) ^ 9 < rate.Inf := by
  unfold rate.Inf
  norm_num

theorem timeSub_self (t : Nat) : timeSub t t = 0 := by
  unfold timeSub maxDuration
  simp

theorem timeSub_nonneg (t : Nat) : 0 ≤ timeSub t 0 := by
  unfold timeSub maxDuration
  simp

theorem tokensFromDuration_zero (limit : rate.Limit) : rate.tokensFromDuration limit 0 = 0 := by
  unfold rate.tokensFromDuration
  split <;> simp

theorem tokensFromDuration_nonneg (limit : rate.Limit) (d : Int) (hd : 0 ≤ d) :
    0 ≤ rate.tokensFromDuration limit d := by
  unfold rate.tokensFromDuration
  split
  · exact le_refl _
  · rename_i h
    have hl : 0 ≤ limit := le_of_lt (not_le.mp h)
    have hd1 : (0 : ℚ) ≤ (d : ℚ) := by exact_mod_cast hd
    positivity

/-- At the instant of its last update a limiter holds its stored tokens, capped at the burst. -/
theorem advance_at_last (lim : rate.Limiter) (now : Nat) (h : lim.last = now) :
    lim.advance now =
      if lim.tokens > (lim.burst : ℚ) then (lim.burst : ℚ) else lim.tokens := by
  unfold rate.Limiter.advance
  simp only [h, lt_irrefl, if_false, timeSub_self, tokensFromDuration_zero, add_zero]

/-- A deficit of one token costs at least one nanosecond when the rate is at most `10 ^ 9`. -/
theorem durationFromTokens_one_pos (limit : rate.Limit) (h : limit ≤ 10 ^ 9) :
    0 < rate.durationFromTokens limit 1 := by
  unfold rate.durationFromTokens rate.InfDuration maxDuration
  by_cases h0 : limit ≤ 0
  · rw [if_pos h0]; norm_num
  · rw [if_neg h0]
    have hpos : 0 < limit := not_le.mp h0
    have h1 : (1 : ℚ) ≤ (1 / limit) * 10 ^ 9 := by
      rw [div_mul_eq_mul_div, le_div_iff₀ hpos]
      linarith
    simp only
    split
    · norm_num
    · unfold truncate
      rw [if_pos (le_trans zero_le_one h1)]
      have : (1 : Int) ≤ ⌊(1 / limit) * 10 ^ 9⌋ := Int.le_floor.mpr (by simpa using h1)
      omega

/-- A new limiter holds its whole burst. -/
theorem Holds_NewLimiter (r : rate.Limit) (B : Nat) (now : Nat) (h : r ≤ 10 ^ 9) :
    Holds (rate.NewLimiter r (B : Int)) now B := by
  refine ⟨h, ?_⟩
  by_cases h0 : r = 0
  · left; exact ⟨h0, rfl⟩
  · right
    refine ⟨h0, ?_, le_refl _⟩
    unfold rate.Limiter.advance rate.NewLimiter
    simp only [Nat.not_lt_zero, if_false]
    have hd := tokensFromDuration_nonneg r (timeSub now 0) (timeSub_nonneg now)
    split
    · simp
    · rename_i hgt
      have : rate.tokensFromDuration r (timeSub now 0) = 0 := by
        have h2 := not_lt.mp hgt
        push_cast at h2
        linarith
      rw [this]
      simp

/-- While tokens are left, `Allow` admits the event and takes one token. -/
theorem Allow_of_Holds_succ (lim : rate.Limiter) (now m : Nat) (h : Holds lim now (m + 1)) :
    (lim.Allow now).1 = true ∧ Holds (lim.Allow now).2 now m := by
  obtain ⟨hle, hcase⟩ := h
  have hinf : lim.limit ≠ rate.Inf := fun hc => by
    have := rate_Inf_gt
    rw [hc] at hle
    exact absurd hle (not_le.mpr this)
  unfold rate.Limiter.Allow rate.Limiter.reserveN
  rw [if_neg hinf]
  rcases hcase with ⟨h0, hb⟩ | ⟨h0, hadv, hb⟩
  · rw [if_pos h0]
    have hge : lim.burst ≥ 1 := by rw [hb]; push_cast; omega
    rw [if_pos hge]
    refine ⟨rfl, hle, Or.inl ⟨h0, ?_⟩⟩
    show lim.burst - 1 = (m : Int)
    rw [hb]; push_cast; omega
  · rw [if_neg h0]
    have htok : lim.advance now - ((1 : Int) : ℚ) = (m : ℚ) := by
      rw [hadv]; push_cast; ring
    have hnot : ¬ (lim.advance now - ((1 : Int) : ℚ) < 0) := by
      rw [htok]; exact not_lt.mpr (Nat.cast_nonneg m)
    have hok : (1 : Int) ≤ lim.burst ∧ (0 : Int) ≤ 0 := ⟨by push_cast at hb; omega, le_refl _⟩
    simp only [hnot, if_false, hok, and_self, decide_True, if_true]
    refine ⟨trivial, hle, Or.inr ⟨h0, ?_, by push_cast at hb ⊢; omega⟩⟩
    rw [advance_at_last _ now rfl]
    show (if lim.advance now - ((1 : Int) : ℚ) > (lim.burst : ℚ) then (lim.burst : ℚ)
      else lim.advance now - ((1 : Int) : ℚ)) = (m : ℚ)
    rw [htok]
    have hmb : ¬ ((m : ℚ) > (lim.burst : ℚ)) := by
      have : (m : Int) ≤ lim.burst := by push_cast at hb; omega
      have h2 : ((m : Int) : ℚ) ≤ (lim.burst : ℚ) := by exact_mod_cast this
      push_cast at h2
      exact not_lt.mpr h2
    rw [if_neg hmb]

/-- With no token left, `Allow` refuses the event and leaves the limiter as it is. -/
theorem Allow_of_Holds_zero (lim : rate.Limiter) (now : Nat) (h : Holds lim now 0) :
    lim.Allow now = (false, lim) := by
  obtain ⟨hle, hcase⟩ := h
  have hinf : lim.limit ≠ rate.Inf := fun hc => by
    have := rate_Inf_gt
    rw [hc] at hle
    exact absurd hle (not_le.mpr this)
  unfold rate.Limiter.Allow rate.Limiter.reserveN
  rw [if_neg hinf]
  rcases hcase with ⟨h0, hb⟩ | ⟨h0, hadv, _⟩
  · rw [if_pos h0]
    have hge : ¬ lim.burst ≥ 1 := by rw [hb]; simp
    rw [if_neg hge]
  · rw [if_neg h0]
    have htok : lim.advance now - ((1 : Int) : ℚ) = -1 := by
      rw [hadv]; push_cast; ring
    have hneg : lim.advance now - ((1 : Int) : ℚ) < 0 := by rw [htok]; norm_num
    have hwait := durationFromTokens_one_pos lim.limit hle
    have hok : ¬ ((1 : Int) ≤ lim.burst ∧
        rate.durationFromTokens lim.limit (-(lim.advance now - ((1 : Int) : ℚ))) ≤ 0) := by
      rw [htok, neg_neg]
      intro hc
      omega
    simp only [hneg, if_true, hok, decide_False, Bool.false_eq_true, if_false]

/-! ### `RateLimiter` -/

/-- The handler on a key the registry holds: `Allow` on that limiter decides. -/
theorem RateLimiter_seen (next : Handler) (w : ResponseWriter) (r : Request) (σ : World)
    (k : GoString) (id : Nat) (lim : rate.Limiter) (hip : ip.Get r = some k)
    (hk : σ.limiter.keys.lookup k = some id) (hh : σ.heap.get? id = some lim) :
    RateLimiter next w r σ =
      if (lim.Allow σ.now).1 = true then
        next w r { σ with heap := σ.heap.set id (lim.Allow σ.now).2 }
      else
        some (httpError w (str "Too Many Requests") 429,
          World.warn { σ with heap := σ.heap.set id (lim.Allow σ.now).2 } r.ctx
            (str "Too Many Requests")
            [(str "method", r.Method), (str "url", r.URL), (str "ip", k)]) := by
  unfold RateLimiter rateLimiter.GetLimiter
  simp only [hip, hk, hh]
  cases hA : (lim.Allow σ.now).1
  · simp
    rfl
  · simp

/-- The handler on a key the registry does not hold: `Add` first, then as on a held key. -/
theorem RateLimiter_unseen (next : Handler) (w : ResponseWriter) (r : Request) (σ : World)
    (k : GoString) (hip : ip.Get r = some k) (hk : σ.limiter.keys.lookup k = none) :
    RateLimiter next w r σ = RateLimiter next w r (σ.addLimiter k) := by
  unfold RateLimiter rateLimiter.GetLimiter World.addLimiter rateLimiter.Add
  simp only [hip, hk]
  simp

theorem serveAll_cons (h : Handler) (w : ResponseWriter) (r : Request)
    (rest : List (ResponseWriter × Request)) (σ : World) :
    serveAll h ((w, r) :: rest) σ =
      match h w r σ with
      | none => none
      | some (w1, σ1) =>
        match serveAll h rest σ1 with
        | none => none
        | some (ws, σ2) => some (w1 :: ws, σ2) := rfl

/-- A limiter that admits exactly `admitted.length` further events serves that many requests
for its key and refuses the next one. -/
theorem serveAll_burst (k : GoString) :
    ∀ (admitted : List (ResponseWriter × Request)) (w : ResponseWriter) (r : Request)
      (σ : World) (id : Nat) (lim : rate.Limiter),
      (∀ p ∈ admitted, ip.Get p.2 = some k) → ip.Get r = some k →
      σ.limiter.keys.lookup k = some id → σ.heap.get? id = some lim →
      Holds lim σ.now admitted.length →
      ∃ σ1, serveAll (RateLimiter recordNext) (admitted ++ [(w, r)]) σ =
          some (admitted.map Prod.fst ++ [httpError w (str "Too Many Requests") 429], σ1) ∧
        σ1.served = σ.served ++ admitted := by
  intro admitted
  induction admitted with
  | nil =>
    intro w r σ id lim _ hr hk hh hold
    have hA := Allow_of_Holds_zero lim σ.now hold
    refine ⟨World.warn { σ with heap := σ.heap.set id lim } r.ctx (str "Too Many Requests")
      [(str "method", r.Method), (str "url", r.URL), (str "ip", k)], ?_, ?_⟩
    · rw [List.nil_append, serveAll_cons, RateLimiter_seen recordNext w r σ k id lim hr hk hh, hA]
      simp only [Bool.false_eq_true, if_false]
      rfl
    · simp [World.warn]
  | cons p rest ih =>
    intro w r σ id lim hall hr hk hh hold
    obtain ⟨w0, r0⟩ := p
    have hr0 : ip.Get r0 = some k := hall (w0, r0) (List.mem_cons_self _ _)
    have hrest : ∀ q ∈ rest, ip.Get q.2 = some k :=
      fun q hq => hall q (List.mem_cons_of_mem _ hq)
    obtain ⟨hA1, hA2⟩ := Allow_of_Holds_succ lim σ.now rest.length hold
    have hid : id < σ.heap.length := by
      rw [List.get?_eq_getElem?] at hh
      exact (List.getElem?_eq_some_iff.mp hh).1
    obtain ⟨σ1, hs, hserved⟩ := ih w r
      { σ with heap := σ.heap.set id (lim.Allow σ.now).2, served := σ.served ++ [(w0, r0)] }
      id (lim.Allow σ.now).2 hrest hr hk
      (by simp [List.getElem?_set, hid]) hA2
    refine ⟨σ1, ?_, ?_⟩
    · rw [List.cons_append, serveAll_cons,
        RateLimiter_seen recordNext w0 r0 σ k id lim hr0 hk hh, if_pos hA1]
      simp only [recordNext]
      rw [hs]
      rfl
    · rw [hserved]
      simp

theorem Allow_Inf (lim : rate.Limiter) (now : Nat) (h : lim.limit = rate.Inf) :
    lim.Allow now = (true, lim) := by
  unfold rate.Limiter.Allow rate.Limiter.reserveN
  exact if_pos h

/-- Above `10 ^ 9` events per second a deficit of one token costs less than a nanosecond, which
the conversion to `time.Duration` truncates to 0: at `2 * 10 ^ 9` per second an empty bucket
of burst 1 still admits an event at the instant of its last update. -/
theorem Allow_fast_rate_overdraws (lim : rate.Limiter) (now : Nat)
    (hl : lim.limit = 2 * 10 ^ 9) (hb : lim.burst = 1) (ht : lim.tokens = 0)
    (hlast : lim.last = now) :
    (lim.Allow now).1 = true := by
  have hlt : (2 * 10 ^ 9 : ℚ) < rate.Inf := by
    have h1 : (2 * 10 ^ 9 : ℚ) < 10 ^ 10 := by norm_num
    have h2 : (10 : ℚ) ^ 10 < rate.Inf := by
      unfold rate.Inf
      norm_num
    exact lt_trans h1 h2
  have hinf : lim.limit ≠ rate.Inf := by rw [hl]; exact ne_of_lt hlt
  have h0 : lim.limit ≠ 0 := by rw [hl]; positivity
  have hfloor : ⌊(1 / 2 : ℚ)⌋ = 0 := by
    rw [Int.floor_eq_zero_iff]
    constructor <;> norm_num
  have hadv : lim.advance now = 0 := by
    rw [advance_at_last lim now hlast, ht, hb]
    norm_num
  have hwait : rate.durationFromTokens lim.limit 1 = 0 := by
    unfold rate.durationFromTokens truncate maxDuration
    rw [hl]
    norm_num [hfloor]
  unfold rate.Limiter.Allow rate.Limiter.reserveN
  rw [if_neg hinf, if_neg h0]
  simp only [hadv, hb]
  norm_num [hwait]
/-- A limiter at the rate `rate.Inf` admits every request for its key. -/
theorem serveAll_Inf (k : GoString) :
    ∀ (reqs : List (ResponseWriter × Request)) (σ : World) (id : Nat) (lim : rate.Limiter),
      (∀ p ∈ reqs, ip.Get p.2 = some k) →
      σ.limiter.keys.lookup k = some id → σ.heap.get? id = some lim →
      lim.limit = rate.Inf →
      ∃ σ1, serveAll (RateLimiter recordNext) reqs σ = some (reqs.map Prod.fst, σ1) ∧
        σ1.served = σ.served ++ reqs := by
  intro reqs
  induction reqs with
  | nil =>
    intro σ id lim _ _ _ _
    exact ⟨σ, rfl, by simp⟩
  | cons p rest ih =>
    intro σ id lim hall hk hh hinf
    obtain ⟨w0, r0⟩ := p
    have hr0 : ip.Get r0 = some k := hall (w0, r0) (List.mem_cons_self _ _)
    have hrest : ∀ q ∈ rest, ip.Get q.2 = some k :=
      fun q hq => hall q (List.mem_cons_of_mem _ hq)
    have hid : id < σ.heap.length := by
      rw [List.get?_eq_getElem?] at hh
      exact (List.getElem?_eq_some_iff.mp hh).1
    obtain ⟨σ1, hs, hserved⟩ := ih
      { σ with heap := σ.heap.set id lim, served := σ.served ++ [(w0, r0)] }
      id lim hrest hk (by simp [List.getElem?_set, hid]) hinf
    refine ⟨σ1, ?_, ?_⟩
    · rw [serveAll_cons, RateLimiter_seen recordNext w0 r0 σ k id lim hr0 hk hh,
        Allow_Inf lim σ.now hinf]
      simp only [if_true, recordNext]
      rw [hs]
      rfl
    · rw [hserved]
      simp

/-! ### `netip` and `Anonymize` -/

theorem or_shift_eq_add (x y i : Nat) (hx : x % 2 ^ i = 0) (hy : y < 2 ^ i) : x ||| y = x + y := by
  have h := Nat.mul_add_lt_is_or hy (x / 2 ^ i)
  have hx2 : 2 ^ i * (x / 2 ^ i) = x := by
    have := Nat.div_add_mod x (2 ^ i)
    omega
  rw [hx2] at h
  exact h.symm

theorem AddrFrom4_lo (a b c d : Byte) :
    (AddrFrom4 a b c d).lo = 0xffff00000000 + a.val * 2 ^ 24 + b.val * 2 ^ 16 + c.val * 2 ^ 8 + d.val := by
  unfold AddrFrom4
  simp only [Nat.shiftLeft_eq]
  have ha := a.isLt
  have hb := b.isLt
  have hc := c.isLt
  have hd := d.isLt
  have e1 : 0xffff00000000 ||| a.val * 2 ^ 24 = 0xffff00000000 + a.val * 2 ^ 24 :=
    or_shift_eq_add _ _ 32 (by norm_num) (by omega)
  have e2 : (0xffff00000000 + a.val * 2 ^ 24) ||| b.val * 2 ^ 16 =
      0xffff00000000 + a.val * 2 ^ 24 + b.val * 2 ^ 16 :=
    or_shift_eq_add _ _ 24 (by omega) (by omega)
  have e3 : (0xffff00000000 + a.val * 2 ^ 24 + b.val * 2 ^ 16) ||| c.val * 2 ^ 8 =
      0xffff00000000 + a.val * 2 ^ 24 + b.val * 2 ^ 16 + c.val * 2 ^ 8 :=
    or_shift_eq_add _ _ 16 (by omega) (by omega)
  have e4 : (0xffff00000000 + a.val * 2 ^ 24 + b.val * 2 ^ 16 + c.val * 2 ^ 8) ||| d.val =
      0xffff00000000 + a.val * 2 ^ 24 + b.val * 2 ^ 16 + c.val * 2 ^ 8 + d.val :=
    or_shift_eq_add _ _ 8 (by omega) (by omega)
  rw [e1, e2, e3, e4]

theorem land_clear_low16 (x : Nat) (hx : x < 2 ^ 64) :
    x &&& (2 ^ 64 - 2 ^ 16) = x / 2 ^ 16 * 2 ^ 16 := by
  apply Nat.eq_of_testBit_eq
  intro i
  have hm : (2 : Nat) ^ 64 - 2 ^ 16 = 2 ^ 16 * (2 ^ 48 - 1) := by norm_num
  rw [Nat.testBit_and, hm, Nat.mul_comm (x / 2 ^ 16), Nat.testBit_mul_pow_two,
    Nat.testBit_mul_pow_two, Nat.testBit_two_pow_sub_one, ← Nat.shiftRight_eq_div_pow,
    Nat.testBit_shiftRight]
  by_cases hi : 16 ≤ i
  · have e : 16 + (i - 16) = i := by omega
    rw [e]
    by_cases h64 : i < 64
    · have : i - 16 < 48 := by omega
      simp [hi, this]
    · have hlt : x < 2 ^ i := lt_of_lt_of_le hx (Nat.pow_le_pow_right (by norm_num) (by omega))
      simp [Nat.testBit_lt_two_pow hlt]
  · simp [hi]
theorem AddrFrom4_v4 (a b c d : Byte) :
    (AddrFrom4 a b c d).v4 0 = a.val ∧ (AddrFrom4 a b c d).v4 1 = b.val ∧
    (AddrFrom4 a b c d).v4 2 = c.val ∧ (AddrFrom4 a b c d).v4 3 = d.val := by
  have ha := a.isLt
  have hb := b.isLt
  have hc := c.isLt
  have hd := d.isLt
  unfold Addr.v4 shr64
  rw [AddrFrom4_lo]
  simp only [Nat.shiftRight_eq_div_pow]
  refine ⟨?_, ?_, ?_, ?_⟩ <;> norm_num <;> omega

theorem AddrFrom4_string4 (a b c d : Byte) :
    (AddrFrom4 a b c d).String = dottedQuad a.val b.val c.val d.val := by
  obtain ⟨h0, h1, h2, h3⟩ := AddrFrom4_v4 a b c d
  show (AddrFrom4 a b c d).string4 = _
  unfold Addr.string4 Addr.appendTo4 dottedQuad
  rw [h0, h1, h2, h3]

theorem AddrFrom4_Prefix16 (a b c d : Byte) :
    (AddrFrom4 a b c d).Prefix 16 = some (AddrFrom4 a b 0 0) := by
  have hlo := AddrFrom4_lo a b c d
  have hlo0 := AddrFrom4_lo a b 0 0
  have ha := a.isLt
  have hb := b.isLt
  have hc := c.isLt
  have hd := d.isLt
  have hmask : mask6 112 = (2 ^ 64 - 1, 2 ^ 64 - 2 ^ 16) := by decide
  have hland : (AddrFrom4 a b c d).lo &&& (2 ^ 64 - 2 ^ 16) = (AddrFrom4 a b 0 0).lo := by
    rw [land_clear_low16 _ (by rw [hlo]; omega), hlo, hlo0]
    simp only [Fin.val_zero]
    omega
  show (if (16 : Int) < 0 then none else _) = _
  rw [if_neg (by norm_num)]
  show (if (16 : Int) > 32 then none else _) = _
  rw [if_neg (by norm_num)]
  have e : (16 : Int).toNat + 96 = 112 := by decide
  simp only [e, hmask, hland]
  have hhi : (AddrFrom4 a b c d).hi = 0 := rfl
  have hz : (AddrFrom4 a b c d).z = Zone.z4 := rfl
  rw [hhi, hz, Nat.zero_and]
  rfl
theorem hexDigit_val (d : Nat) (h : d < 10) : (hexDigit d).val = 48 + d := by
  unfold hexDigit byteOf
  rw [if_pos h]
  simp only [Fin.ofNat, Fin.val_mk]
  omega

theorem hexDigit_ne (d : Nat) (h : d < 10) :
    hexDigit d ≠ dot ∧ hexDigit d ≠ colon ∧ hexDigit d ≠ percent ∧ hexDigit d ≠ lbracket := by
  have hv := hexDigit_val d h
  refine ⟨?_, ?_, ?_, ?_⟩ <;>
  · intro hc
    rw [hc] at hv
    simp [dot, colon, percent, lbracket] at hv
    omega

theorem appendDecimal_eq (b : GoString) (x : Nat) :
    appendDecimal b x = b ++ appendDecimal [] x := by
  unfold appendDecimal
  by_cases h1 : x ≥ 100 <;> by_cases h2 : x ≥ 10 <;> simp [h1, h2]

theorem appendDecimal_cases (n : Nat) :
    (n < 10 ∧ appendDecimal [] n = [hexDigit (n % 10)]) ∨
    (10 ≤ n ∧ n < 100 ∧ appendDecimal [] n = [hexDigit (n / 10 % 10), hexDigit (n % 10)]) ∨
    (100 ≤ n ∧ appendDecimal [] n =
      [hexDigit (n / 100), hexDigit (n / 10 % 10), hexDigit (n % 10)]) := by
  unfold appendDecimal
  by_cases h1 : n ≥ 100
  · right; right
    have h2 : n ≥ 10 := by omega
    exact ⟨h1, by simp [h1, h2]⟩
  · by_cases h2 : n ≥ 10
    · right; left
      exact ⟨h2, by omega, by simp [h1, h2]⟩
    · left
      exact ⟨by omega, by simp [h1, h2]⟩

theorem parseIPv4FieldsLoop_digit (d : Nat) (rest : GoString) (i : Nat) (prev : Byte)
    (val pos digLen : Nat) (fields : List Byte) (hd : d < 10)
    (hlead : ¬ (digLen = 1 ∧ val = 0)) (hval : val * 10 + d ≤ 255) :
    parseIPv4FieldsLoop (hexDigit d :: rest) i prev val pos digLen fields =
      parseIPv4FieldsLoop rest (i + 1) (hexDigit d) (val * 10 + d) pos (digLen + 1) fields := by
  have hv := hexDigit_val d hd
  rw [parseIPv4FieldsLoop]
  have h1 : 48 ≤ (hexDigit d).val ∧ (hexDigit d).val ≤ 57 := by omega
  have h2 : val * 10 + (hexDigit d).val - 48 = val * 10 + d := by omega
  rw [if_pos h1, if_neg hlead]
  simp only [h2]
  rw [if_neg (by omega)]

theorem parseIPv4FieldsLoop_dot (rest : GoString) (i : Nat) (prev : Byte)
    (val pos digLen : Nat) (fields : List Byte) (hi : i ≠ 0) (hrest : rest ≠ [])
    (hprev : prev ≠ dot) (hpos : pos ≠ 3) :
    parseIPv4FieldsLoop (dot :: rest) i prev val pos digLen fields =
      parseIPv4FieldsLoop rest (i + 1) dot 0 (pos + 1) 0 (fields.set pos (byteOf val)) := by
  rw [parseIPv4FieldsLoop]
  rw [if_neg (by decide), if_pos rfl, if_neg (by simp [hi, hrest, hprev]), if_neg hpos]

/-- The loop reads the decimal text of an octet as that octet. -/
theorem parseIPv4FieldsLoop_field (n : Nat) (hn : n < 256) (i : Nat) (prev : Byte) :
    ∃ (i1 : Nat) (p1 : Byte) (dl : Nat), i1 ≠ 0 ∧ p1 ≠ dot ∧
      ∀ (rest : GoString) (pos : Nat) (fields : List Byte),
        parseIPv4FieldsLoop (appendDecimal [] n ++ rest) i prev 0 pos 0 fields =
          parseIPv4FieldsLoop rest i1 p1 n pos dl fields := by
  rcases appendDecimal_cases n with ⟨h, e⟩ | ⟨h1, h2, e⟩ | ⟨h, e⟩
  · refine ⟨i + 1, hexDigit (n % 10), 1, by omega, (hexDigit_ne _ (by omega)).1, ?_⟩
    intro rest pos fields
    rw [e, List.singleton_append, parseIPv4FieldsLoop_digit _ _ _ _ _ _ _ _ (by omega)
      (by omega) (by omega)]
    have : 0 * 10 + n % 10 = n := by omega
    rw [this]
  · refine ⟨i + 1 + 1, hexDigit (n % 10), 2, by omega, (hexDigit_ne _ (by omega)).1, ?_⟩
    intro rest pos fields
    rw [e]
    show parseIPv4FieldsLoop (hexDigit (n / 10 % 10) :: hexDigit (n % 10) :: rest) _ _ _ _ _ _ = _
    rw [parseIPv4FieldsLoop_digit _ _ _ _ _ _ _ _ (by omega) (by omega) (by omega),
      parseIPv4FieldsLoop_digit _ _ _ _ _ _ _ _ (by omega) (by omega) (by omega)]
    have : (0 * 10 + n / 10 % 10) * 10 + n % 10 = n := by omega
    rw [this]
  · refine ⟨i + 1 + 1 + 1, hexDigit (n % 10), 3, by omega, (hexDigit_ne _ (by omega)).1, ?_⟩
    intro rest pos fields
    rw [e]
    show parseIPv4FieldsLoop
      (hexDigit (n / 100) :: hexDigit (n / 10 % 10) :: hexDigit (n % 10) :: rest) _ _ _ _ _ _ = _
    rw [parseIPv4FieldsLoop_digit _ _ _ _ _ _ _ _ (by omega) (by omega) (by omega),
      parseIPv4FieldsLoop_digit _ _ _ _ _ _ _ _ (by omega) (by omega) (by omega),
      parseIPv4FieldsLoop_digit _ _ _ _ _ _ _ _ (by omega) (by omega) (by omega)]
    have : ((0 * 10 + n / 100) * 10 + n / 10 % 10) * 10 + n % 10 = n := by omega
    rw [this]

theorem appendDecimal_ne_nil (n : Nat) : appendDecimal [] n ≠ [] := by
  rcases appendDecimal_cases n with ⟨_, e⟩ | ⟨_, _, e⟩ | ⟨_, e⟩ <;> rw [e] <;> simp

theorem dottedQuad_eq (a b c d : Nat) :
    dottedQuad a b c d =
      appendDecimal [] a ++ (dot :: (appendDecimal [] b ++ (dot :: (appendDecimal [] c ++
        (dot :: (appendDecimal [] d ++ [])))))) := by
  unfold dottedQuad
  rw [appendDecimal_eq _ d, appendDecimal_eq _ c, appendDecimal_eq _ b]
  simp

theorem byteOf_val (a : Byte) : byteOf a.val = a := by
  apply Fin.ext
  simp [byteOf, Fin.ofNat, Nat.mod_eq_of_lt a.isLt]

/-- `parseIPv4Fields` reads the text `a.b.c.d` as the four octets. -/
theorem parseIPv4Fields_dottedQuad (a b c d : Byte) :
    parseIPv4Fields (dottedQuad a.val b.val c.val d.val) = some [a, b, c, d] := by
  obtain ⟨i1, p1, dl1, hi1, hp1, h1⟩ := parseIPv4FieldsLoop_field a.val a.isLt 0 0
  obtain ⟨i2, p2, dl2, hi2, hp2, h2⟩ := parseIPv4FieldsLoop_field b.val b.isLt (i1 + 1) dot
  obtain ⟨i3, p3, dl3, hi3, hp3, h3⟩ := parseIPv4FieldsLoop_field c.val c.isLt (i2 + 1) dot
  obtain ⟨i4, p4, dl4, _, _, h4⟩ := parseIPv4FieldsLoop_field d.val d.isLt (i3 + 1) dot
  unfold parseIPv4Fields
  rw [dottedQuad_eq, h1,
    parseIPv4FieldsLoop_dot _ _ _ _ _ _ _ hi1 (by simp [appendDecimal_ne_nil]) hp1 (by decide),
    h2,
    parseIPv4FieldsLoop_dot _ _ _ _ _ _ _ hi2 (by simp [appendDecimal_ne_nil]) hp2 (by decide),
    h3,
    parseIPv4FieldsLoop_dot _ _ _ _ _ _ _ hi3 (by simp [appendDecimal_ne_nil]) hp3 (by decide),
    h4]
  rw [parseIPv4FieldsLoop]
  simp [byteOf_val]

theorem ParseAddrScan_digit (s : GoString) (d : Nat) (hd : d < 10) (rest : GoString) :
    ParseAddrScan s (hexDigit d :: rest) = ParseAddrScan s rest := by
  obtain ⟨h1, h2, h3, _⟩ := hexDigit_ne d hd
  rw [ParseAddrScan, if_neg h1, if_neg h2, if_neg h3]

theorem ParseAddrScan_field (s : GoString) (n : Nat) (hn : n < 256) (rest : GoString) :
    ParseAddrScan s (appendDecimal [] n ++ (dot :: rest)) = parseIPv4 s := by
  have hdot : ParseAddrScan s (dot :: rest) = parseIPv4 s := by
    rw [ParseAddrScan, if_pos rfl]
  rcases appendDecimal_cases n with ⟨h, e⟩ | ⟨h1, h2, e⟩ | ⟨h, e⟩
  · rw [e, List.singleton_append, ParseAddrScan_digit _ _ (by omega), hdot]
  · rw [e]
    show ParseAddrScan s (_ :: _ :: dot :: rest) = _
    rw [ParseAddrScan_digit _ _ (by omega), ParseAddrScan_digit _ _ (by omega), hdot]
  · rw [e]
    show ParseAddrScan s (_ :: _ :: _ :: dot :: rest) = _
    rw [ParseAddrScan_digit _ _ (by omega), ParseAddrScan_digit _ _ (by omega),
      ParseAddrScan_digit _ _ (by omega), hdot]

/-- `ParseAddr` reads the text `a.b.c.d` as the IPv4 address of these octets. -/
theorem ParseAddr_dottedQuad (a b c d : Byte) :
    ParseAddr (dottedQuad a.val b.val c.val d.val) = some (AddrFrom4 a b c d) := by
  unfold ParseAddr
  have h := ParseAddrScan_field (dottedQuad a.val b.val c.val d.val) a.val a.isLt
    (appendDecimal [] b.val ++ (dot :: (appendDecimal [] c.val ++
        (dot :: (appendDecimal [] d.val ++ [])))))
  rw [← dottedQuad_eq] at h
  rw [h]
  unfold parseIPv4
  rw [parseIPv4Fields_dottedQuad]
  rfl

theorem stripBrackets_dottedQuad (a : Byte) (b c d : Nat) :
    stripBrackets (dottedQuad a.val b c d) = dottedQuad a.val b c d := by
  unfold stripBrackets
  have ha := a.isLt
  have hhead : (dottedQuad a.val b c d).get? 0 ≠ some lbracket := by
    rw [dottedQuad_eq]
    rcases appendDecimal_cases a.val with ⟨_, e⟩ | ⟨_, _, e⟩ | ⟨_, e⟩ <;> rw [e] <;>
      simp <;> exact fun hc => (hexDigit_ne _ (by omega)).2.2.2 hc
  rw [if_neg (fun hc => hhead hc.2.1)]

/-- On an IPv4 address `IsLoopback` tests the first octet against 127. -/
theorem AddrFrom4_IsLoopback (a b c d : Byte) :
    (AddrFrom4 a b c d).IsLoopback = decide (a.val = 127) := by
  obtain ⟨h0, _, _, _⟩ := AddrFrom4_v4 a b c d
  have h46 : (AddrFrom4 a b c d).Is4In6 = false := rfl
  have h4 : (AddrFrom4 a b c d).Is4 = true := rfl
  unfold Addr.IsLoopback
  simp only [h46, Bool.false_eq_true, if_false, h4, if_true, h0]

/-- On an IPv4 address `IsPrivate` tests for 10.0.0.0/8, 172.16.0.0/12 and 192.168.0.0/16. -/
theorem AddrFrom4_IsPrivate (a b c d : Byte) :
    (AddrFrom4 a b c d).IsPrivate =
      decide (a.val = 10 ∨ (a.val = 172 ∧ b.val &&& 0xf0 = 16) ∨ (a.val = 192 ∧ b.val = 168)) := by
  obtain ⟨h0, h1, _, _⟩ := AddrFrom4_v4 a b c d
  have h46 : (AddrFrom4 a b c d).Is4In6 = false := rfl
  have h4 : (AddrFrom4 a b c d).Is4 = true := rfl
  unfold Addr.IsPrivate
  simp only [h46, Bool.false_eq_true, if_false, h4, if_true, h0, h1]
/-! ## Theorems -/

/-- C1: `apply H [m1, ..., mn]` is `m1 (m2 (... (mn H)))` and `apply H []` is `H`, so the
first-listed middleware wraps outermost; with `[A, B]` a request that is not
short-circuited visits A(in), B(in), H, B(out), A(out), and when `B` answers without
calling next, `H` is not visited and the outbound part of `A` runs on the answer of `B`. -/
theorem apply_first_wraps_outermost :
    (∀ (α : Type) (H : α) (mws : List (Middleware α)),
        apply H mws = mws.foldr (fun m acc => m acc) H) ∧
    (∀ (α : Type) (H : α), apply H ([] : List (Middleware α)) = H) ∧
    (∀ (α : Type) (H : α) (A B : Middleware α), apply H [A, B] = A (B H)) ∧
    (∀ (sH : Nat) (tr : List Visit),
        apply (terminal sH) [passThrough "A", passThrough "B"] tr =
          (sH, tr ++ [Visit.enter "A", Visit.enter "B", Visit.handle,
                      Visit.leave "B" sH, Visit.leave "A" sH])) ∧
    (∀ (sH sB : Nat) (tr : List Visit),
        apply (terminal sH) [passThrough "A", shortCircuit "B" sB] tr =
          (sB, tr ++ [Visit.enter "A", Visit.enter "B", Visit.leave "A" sB])) := by
  refine ⟨?_, ?_, ?_, ?_, ?_⟩
  · intro α H mws
    unfold apply
    rw [applyLoop_eq_foldr mws mws.length H (Nat.le_refl _), List.take_length]
  · intro α H
    rfl
  · intro α H A B
    rfl
  · intro sH tr
    simp [apply, applyLoop, passThrough, terminal]
  · intro sH sB tr
    simp [apply, applyLoop, passThrough, shortCircuit]


/-- C4: `Admin(s)(next)` is meant to invoke `next` exactly on a header equal to `s` and to answer
403 in every other case. On a request with a wrong key whose `RemoteAddr` holds no `':'`,
`ip.Get(r)`, an argument of the warning, panics: there is no 403 answer. -/
theorem Admin_wrong_key_without_colon_panics (next : Handler) (w : ResponseWriter) (σ : World) :
    Admin (str "secret") next w wrongKeyRequest σ = none := by
  have h : ip.Get wrongKeyRequest = none := by
    rw [ip_Get_eq_none_iff]; simp [wrongKeyRequest]
  rw [Admin_eq, if_neg (by decide), h]

/-- C5 (as stated, refuted): with the empty admin key, a request without `X-Api-Key` is handed
to `next` and gets no 403. -/
theorem Admin_empty_key_admits_absent_header :
    Admin [] recordNext [] (tcpRequest []) (World.start 1 1 0) =
        recordNext [] (tcpRequest []) (World.start 1 1 0) ∧
      (Admin [] recordNext [] (tcpRequest []) (World.start 1 1 0)).map
        (fun p => (p.1, p.2.served)) = some ([], [([], tcpRequest [])]) := by
  constructor
  · rw [Admin_eq, if_pos (by decide)]
  · rw [Admin_eq, if_pos (by decide)]
    rfl

/-- C5 (amended): for every non-empty admin key, a request whose `X-Api-Key` header is empty or
absent and whose `RemoteAddr` holds a `':'` is answered 403 Forbidden, whatever `next` is:
`next` is not invoked. -/
theorem Admin_rejects_empty_header (adminKey : GoString) (next : Handler) (w : ResponseWriter)
    (r : Request) (σ : World) (hkey : adminKey ≠ [])
    (hhdr : Header.Get r.Header (str "X-Api-Key") = []) (hcolon : colon ∈ r.RemoteAddr) :
    ∃ addr, ip.Get r = some addr ∧
      Admin adminKey next w r σ =
        some (httpError w (StatusText StatusForbidden) StatusForbidden,
          σ.warn r.ctx (str "Invalid API key")
            [(str "method", r.Method), (str "url", r.URL), (str "ip", addr)]) := by
  refine ⟨_, ip_Get_of_colon r hcolon, ?_⟩
  rw [Admin_eq, if_neg (by rw [hhdr]; exact fun h => hkey h.symm), ip_Get_of_colon r hcolon]
  rfl

/-- C5 (amended), at the key `secret` and a request without headers from `192.0.2.1:1234`. -/
theorem Admin_rejects_empty_header_witness :
    ∃ addr, ip.Get (tcpRequest []) = some addr ∧
      Admin (str "secret") recordNext [] (tcpRequest []) (World.start 1 1 0) =
        some (httpError [] (StatusText StatusForbidden) StatusForbidden,
          (World.start 1 1 0).warn (tcpRequest []).ctx (str "Invalid API key")
            [(str "method", (tcpRequest []).Method), (str "url", (tcpRequest []).URL),
             (str "ip", addr)]) :=
  Admin_rejects_empty_header (str "secret") recordNext [] (tcpRequest []) (World.start 1 1 0)
    (by decide) (by decide) (by decide)

/-- C7: `ip.Get` is meant to yield a string for every request. On a request whose `RemoteAddr`
is empty it panics, whatever the `X-Envoy-External-Address` header holds: `LastIndex` is `-1`
and the slice expression `RemoteAddr[:-1]` is evaluated before `cmp.Or` is called. -/
theorem ip_Get_panics_on_empty_RemoteAddr (m u : GoString) (hdr : Header) (c : Context) :
    LastIndex ([] : GoString) colon = -1 ∧
      ip.Get { Method := m, URL := u, Header := hdr, RemoteAddr := [], ctx := c } = none := by
  constructor
  · rfl
  · rw [ip_Get_eq_none_iff]; simp


/-- One call of `GetLimiter` that runs both of its sections without interference is the
sequential `GetLimiter`. -/
theorem Caller_step_twice_eq_GetLimiter (key : GoString) (reg : rateLimiter)
    (heap : List rate.Limiter) :
    (let s1 := Caller.step key Caller.start reg heap
     Caller.step key s1.1 s1.2.1 s1.2.2) =
      (Caller.returned (reg.GetLimiter heap key).1, (reg.GetLimiter heap key).2.1,
        (reg.GetLimiter heap key).2.2) := by
  unfold rateLimiter.GetLimiter
  cases h : reg.keys.lookup key with
  | none => simp [Caller.step, h]
  | some l => simp [Caller.step, h]

/-- Two calls that run one after the other share one limiter. -/
theorem GetLimiter_sequential_shares_limiter :
    (Sys.run (str "192.0.2.1")
        { reg := newRateLimiter 1 1, heap := [], callers := [Caller.start, Caller.start] }
        [0, 0, 1, 1]).callers = [Caller.returned 0, Caller.returned 0] := by
  decide

/-- C3: concurrent first lookups of an unseen key are meant to yield one limiter. With the
lookups of two calls both made before either `Add`, each call allocates its own limiter:
the calls return different limiters, two limiters exist, and the registry keeps the second. -/
theorem GetLimiter_interleaved_creates_two_limiters :
    (Sys.run (str "192.0.2.1")
        { reg := newRateLimiter 1 1, heap := [], callers := [Caller.start, Caller.start] }
        [0, 1, 0, 1]).callers = [Caller.returned 0, Caller.returned 1] ∧
    (Sys.run (str "192.0.2.1")
        { reg := newRateLimiter 1 1, heap := [], callers := [Caller.start, Caller.start] }
        [0, 1, 0, 1]).heap.length = 2 ∧
    (Sys.run (str "192.0.2.1")
        { reg := newRateLimiter 1 1, heap := [], callers := [Caller.start, Caller.start] }
        [0, 1, 0, 1]).reg.keys.lookup (str "192.0.2.1") = some 1 := by
  refine ⟨by decide, by decide, by decide⟩


/-- C2 (as stated, refuted): at the rate `rate.Inf` and burst 1, of two requests for a
never-seen key served with no time in between both are handed to `next`: the second, which is
request `B + 1`, is not denied and no 429 is written. -/
theorem RateLimiter_Inf_admits_beyond_burst :
    (World.start rate.Inf 1 0).limiter.keys.lookup (str "192.0.2.1") = none ∧
    ip.Get (tcpRequest []) = some (str "192.0.2.1") ∧
    (serveAll (RateLimiter recordNext) [([], tcpRequest []), ([], tcpRequest [])]
        (World.start rate.Inf 1 0)).map (fun p => (p.1, p.2.served)) =
      some ([[], []], [([], tcpRequest []), ([], tcpRequest [])]) := by
  refine ⟨rfl, by decide, ?_⟩
  have hip : ip.Get (tcpRequest []) = some (str "192.0.2.1") := by decide
  obtain ⟨σ1, hs, hserved⟩ := serveAll_Inf (str "192.0.2.1")
    [([], tcpRequest []), ([], tcpRequest [])]
    (World.addLimiter (World.start rate.Inf 1 0) (str "192.0.2.1")) 0
    (rate.NewLimiter rate.Inf 1)
    (by intro p hp; simp at hp; rw [hp]; exact hip)
    rfl rfl rfl
  rw [serveAll_cons,
    RateLimiter_unseen recordNext [] (tcpRequest []) (World.start rate.Inf 1 0)
      (str "192.0.2.1") hip rfl, ← serveAll_cons, hs]
  simp only [Option.map_some', hserved]
  rfl

/-- C2 (amended): for every rate of at most `10 ^ 9` events per second (which leaves out
`rate.Inf`) and burst `B`, every registry state and every key `k` the registry has never seen,
of `B + 1` requests for `k` served with no time in between, the first `B` are handed to `next`
and the last is answered 429 Too Many Requests without `next`. -/
theorem RateLimiter_burst_then_deny (B : Nat) (σ : World) (k : GoString)
    (admitted : List (ResponseWriter × Request)) (w : ResponseWriter) (r : Request)
    (hrate : σ.limiter.rate ≤ 10 ^ 9) (hburst : σ.limiter.burst = (B : Int))
    (hnew : σ.limiter.keys.lookup k = none) (hlen : admitted.length = B)
    (hkeys : ∀ p ∈ admitted ++ [(w, r)], ip.Get p.2 = some k) :
    ∃ σ1, serveAll (RateLimiter recordNext) (admitted ++ [(w, r)]) σ =
        some (admitted.map Prod.fst ++
          [httpError w (StatusText StatusTooManyRequests) StatusTooManyRequests], σ1) ∧
      σ1.served = σ.served ++ admitted := by
  have hr : ip.Get r = some k := hkeys (w, r) (by simp)
  have hall : ∀ p ∈ admitted, ip.Get p.2 = some k :=
    fun p hp => hkeys p (List.mem_append_left _ hp)
  have hfirst : ∀ p, (admitted ++ [(w, r)]).head? = some p → ip.Get p.2 = some k :=
    fun p hp => hkeys p (List.mem_of_mem_head? hp)
  have hstep : serveAll (RateLimiter recordNext) (admitted ++ [(w, r)]) σ =
      serveAll (RateLimiter recordNext) (admitted ++ [(w, r)]) (σ.addLimiter k) := by
    cases hl : admitted ++ [(w, r)] with
    | nil => simp at hl
    | cons p rest =>
      obtain ⟨w0, r0⟩ := p
      have h0 : ip.Get r0 = some k := hfirst (w0, r0) (by rw [hl]; rfl)
      rw [serveAll_cons, serveAll_cons, RateLimiter_unseen recordNext w0 r0 σ k h0 hnew]
  have hhold : Holds (rate.NewLimiter σ.limiter.rate σ.limiter.burst) (σ.addLimiter k).now
      admitted.length := by
    rw [hburst, hlen]
    exact Holds_NewLimiter _ B _ hrate
  obtain ⟨σ1, hs, hserved⟩ := serveAll_burst k admitted w r (σ.addLimiter k) σ.heap.length
    (rate.NewLimiter σ.limiter.rate σ.limiter.burst) hall hr
    (by simp [World.addLimiter, rateLimiter.Add])
    (by simp [World.addLimiter, rateLimiter.Add]) hhold
  exact ⟨σ1, by rw [hstep, hs]; rfl, hserved⟩

/-- C2 (amended), at rate 5, burst 2 and three requests from `192.0.2.1`. -/
theorem RateLimiter_burst_then_deny_witness :
    ∃ σ1, serveAll (RateLimiter recordNext)
        ([([], tcpRequest []), ([], tcpRequest [])] ++ [([], tcpRequest [])])
        (World.start 5 2 0) =
        some ([([], tcpRequest []), ([], tcpRequest [])].map Prod.fst ++
          [httpError [] (StatusText StatusTooManyRequests) StatusTooManyRequests], σ1) ∧
      σ1.served = (World.start 5 2 0).served ++ [([], tcpRequest []), ([], tcpRequest [])] :=
  RateLimiter_burst_then_deny 2 (World.start 5 2 0) (str "192.0.2.1")
    [([], tcpRequest []), ([], tcpRequest [])] [] (tcpRequest [])
    (by simp [World.start, newRateLimiter]; norm_num) rfl rfl rfl (by decide)


/-- C6: `Wrap(h).Handle(ctx, r)` returns what `h.Handle` returns on the same context and on a
record that differs from `r` only in its attributes, which are those of `r` followed by
`request_id = id` when `ctx` carries the string `id` under `requestIDKey`, and which is `r`
itself when `ctx` carries no such string; the context that `RequestID` builds carries its id. -/
theorem Wrap_Handle_adds_request_id {H S : Type} (ops : HandlerOps H S) (h : H)
    (ctx : Context) (r : Record) (sink : S) :
    (∃ r1 : Record,
      (requestIDHandler.ops ops).Handle (Wrap h) ctx r sink = ops.Handle h ctx r1 sink ∧
      r1.Time = r.Time ∧ r1.Message = r.Message ∧ r1.Level = r.Level ∧ r1.PC = r.PC ∧
      r1.attrs = r.attrs ++
        (match ctx.Value CtxKey.requestIDKey with
         | some (Any.string id) => [{ Key := str "request_id", Value := Any.string id }]
         | _ => []) ∧
      ((∀ id, ctx.Value CtxKey.requestIDKey ≠ some (Any.string id)) → r1 = r)) ∧
    (∀ id : GoString, (withRequestID ctx id).Value CtxKey.requestIDKey = some (Any.string id)) := by
  constructor
  · show ∃ r1 : Record, requestIDHandler.Handle ops (Wrap h) ctx r sink = _ ∧ _
    unfold requestIDHandler.Handle Wrap
    cases hv : ctx.Value CtxKey.requestIDKey with
    | none => exact ⟨r, rfl, rfl, rfl, rfl, rfl, by simp, fun _ => rfl⟩
    | some v =>
      cases v with
      | string id =>
        exact ⟨r.Add (str "request_id") id, rfl, rfl, rfl, rfl, rfl, rfl,
          fun hno => absurd rfl (hno id)⟩
      | other n => exact ⟨r, rfl, rfl, rfl, rfl, rfl, by simp, fun _ => rfl⟩
  · intro id
    simp [withRequestID, Context.Value]


/-- C8: for every IPv4 address `a.b.c.d` that is neither private nor loopback, `Anonymize`
returns the text `a.b.0.0`: the first two octets kept, the other two zero. -/
theorem Anonymize_IPv4_keeps_two_octets (a b c d : Byte)
    (hpriv : (AddrFrom4 a b c d).IsPrivate = false)
    (hloop : (AddrFrom4 a b c d).IsLoopback = false) :
    ip.Anonymize (dottedQuad a.val b.val c.val d.val) = dottedQuad a.val b.val 0 0 := by
  unfold ip.Anonymize
  simp only [stripBrackets_dottedQuad, ParseAddr_dottedQuad, hpriv, hloop, Bool.or_self,
    Bool.false_eq_true, if_false]
  have h4 : (AddrFrom4 a b c d).Is4 = true := rfl
  rw [if_pos h4, AddrFrom4_Prefix16]
  simp only
  rw [AddrFrom4_string4]
  rfl

/-- C8, at `86.76.17.1`, the address of the repository test. -/
theorem Anonymize_IPv4_keeps_two_octets_witness :
    ip.Anonymize (str "86.76.17.1") = str "86.76.0.0" :=
  Anonymize_IPv4_keeps_two_octets 86 76 17 1 (by decide) (by decide)

/-- C9: the docstring of `Anonymize` promises the first four hextets of an IPv6 address. On
`2001:db8:1:2:3:4:5:6`, which is neither private nor loopback, the code, which takes
`Prefix(32)`, returns `2001:db8::`: only the first two hextets are kept, not
`2001:db8:1:2::`. -/
theorem Anonymize_IPv6_keeps_two_hextets :
    (ParseAddr (str "2001:db8:1:2:3:4:5:6")).map
        (fun a => (a.IsPrivate, a.IsLoopback, a.Is4)) = some (false, false, false) ∧
      ip.Anonymize (str "2001:db8:1:2:3:4:5:6") = str "2001:db8::" ∧
      ip.Anonymize (str "2001:db8:1:2:3:4:5:6") ≠ str "2001:db8:1:2::" := by
  refine ⟨by decide, by decide, by decide⟩

/-- C10 (as stated, refuted): `[x]` cannot be parsed as an IP address, with or without its
brackets, and `Anonymize` returns `x`, not the input; likewise the loopback `[::1]` comes
back as `::1`, as the repository test expects. -/
theorem Anonymize_strips_brackets :
    ParseAddr (str "[x]") = none ∧ ParseAddr (str "x") = none ∧
      ip.Anonymize (str "[x]") = str "x" ∧ ip.Anonymize (str "[x]") ≠ str "[x]" ∧
      ip.Anonymize (str "[::1]") = str "::1" := by
  refine ⟨by decide, by decide, by decide, by decide, by decide⟩

/-- C10 (amended): let `t` be the input without its enclosing pair of square brackets when the
input is longer than 2 bytes, starts with `'['` and ends with `']'`, and the input itself
otherwise. When `t` cannot be parsed as an IP address, or is a private or a loopback address,
`Anonymize` returns `t`; this is the input unchanged whenever the input is not so bracketed. -/
theorem Anonymize_passes_through (s : GoString)
    (h : ParseAddr (stripBrackets s) = none ∨
      ∃ a, ParseAddr (stripBrackets s) = some a ∧ (a.IsPrivate = true ∨ a.IsLoopback = true)) :
    ip.Anonymize s = stripBrackets s ∧
      (¬ (s.length > 2 ∧ s.get? 0 = some lbracket ∧ s.get? (s.length - 1) = some rbracket) →
        ip.Anonymize s = s) := by
  have h1 : ip.Anonymize s = stripBrackets s := by
    unfold ip.Anonymize
    rcases h with h | ⟨a, ha, hp | hl⟩
    · simp only [h]
    · simp only [ha, hp, Bool.true_or, if_true]
    · simp only [ha, hl, Bool.or_true, if_true]
  refine ⟨h1, fun hnb => ?_⟩
  rw [h1]
  unfold stripBrackets
  rw [if_neg hnb]

/-- C10 (amended), at the loopback address `127.0.0.1` of the repository test. -/
theorem Anonymize_passes_through_witness :
    ip.Anonymize (str "127.0.0.1") = stripBrackets (str "127.0.0.1") ∧
      (¬ ((str "127.0.0.1").length > 2 ∧ (str "127.0.0.1").get? 0 = some lbracket ∧
          (str "127.0.0.1").get? ((str "127.0.0.1").length - 1) = some rbracket) →
        ip.Anonymize (str "127.0.0.1") = str "127.0.0.1") :=
  Anonymize_passes_through (str "127.0.0.1")
    (Or.inr ⟨AddrFrom4 127 0 0 1, by decide, Or.inr (by decide)⟩)

end Server
